import Mathlib

/-!
Verification of the cv-builder resume post-processing pipeline.

The Python sources (`resume_tailor.py`, `main.py`) are shallowly embedded
below.  Strings are modelled as `List Char` (`Chars`), Python dictionaries
holding the resume document are modelled by the `Doc` structure, and each
transformation function of the source is translated into a computable Lean
function of the same name.  All inputs in this development are ASCII, so
`Char.toLower`/`Char.isUpper` coincide with Python's `str.lower`/`str.isupper`
on the modelled data.  All recursive string scanners are structurally
recursive so that concrete instances evaluate by `decide`.
-/

/-- Strings of the embedded program: Python `str` values as lists of characters. -/
abbrev Chars := List Char

/-- Conversion from Lean string literals into the embedded string type. -/
def chars (s : String) : Chars := s.toList

/-- Python `str.lower()` (ASCII). -/
def lowerStr (s : Chars) : Chars := s.map Char.toLower

/-- Boolean prefix test: `prefB p s` holds when `p` is a prefix of `s`. -/
def prefB : Chars → Chars → Bool
  | [], _ => true
  | _ :: _, [] => false
  | a :: as, b :: bs => a = b && prefB as bs

/-- Boolean substring test, mirroring Python's `pat in s`. -/
def substrB (pat : Chars) : Chars → Bool
  | [] => prefB pat []
  | s@(_ :: rest) => prefB pat s || substrB pat rest

/-- Case-insensitive prefix test (ASCII), used for `re.IGNORECASE` matching. -/
def prefCI : Chars → Chars → Bool
  | [], _ => true
  | _ :: _, [] => false
  | a :: as, b :: bs => Char.toLower a = Char.toLower b && prefCI as bs

/-- Python `str.strip()` with no argument: remove surrounding whitespace. -/
def stripStr (s : Chars) : Chars :=
  ((s.dropWhile Char.isWhitespace).reverse.dropWhile Char.isWhitespace).reverse

/-- Python `str.strip(cs)`: remove any of the characters `cs` from both ends. -/
def stripChars (cs : Chars) (s : Chars) : Chars :=
  ((s.dropWhile (· ∈ cs)).reverse.dropWhile (· ∈ cs)).reverse

/-- Scanner for `replaceAll`: `skip` counts characters of a previous match that
remain to be discarded. -/
def replaceAllAux (pat rep : Chars) : Nat → Chars → Chars
  | skip + 1, _ :: rest => replaceAllAux pat rep skip rest
  | _ + 1, [] => []
  | 0, [] => []
  | 0, c :: rest =>
    if pat ≠ [] ∧ prefB pat (c :: rest) then
      rep ++ replaceAllAux pat rep (pat.length - 1) rest
    else
      c :: replaceAllAux pat rep 0 rest

/-- Python `s.replace(pat, rep)`: replace every non-overlapping occurrence,
left to right, case-sensitively. -/
def replaceAll (s : Chars) (pat rep : Chars) : Chars := replaceAllAux pat rep 0 s

/-- Split at the first occurrence of `pat`: returns the part before and the
part after, or `none` when `pat` does not occur (`pat` nonempty in all uses). -/
def splitOnce (pat : Chars) : Chars → Option (Chars × Chars)
  | [] => if pat = [] then some ([], []) else none
  | c :: rest =>
    if prefB pat (c :: rest) then
      some ([], List.drop pat.length (c :: rest))
    else
      (splitOnce pat rest).map (fun p => (c :: p.1, p.2))

/-- Python `s.split(pat)` (full split on a nonempty separator). The `fuel`
argument bounds recursion depth; it is instantiated with `s.length + 1`. -/
def splitAllAux (pat : Chars) : Nat → Chars → List Chars
  | 0, s => [s]
  | fuel + 1, s =>
    match splitOnce pat s with
    | none => [s]
    | some (before, after) => before :: splitAllAux pat fuel after

/-- Python `s.split(pat)` for a nonempty separator `pat`. -/
def splitAll (pat : Chars) (s : Chars) : List Chars := splitAllAux pat (s.length + 1) s

/-- Scanner for `splitWs`; `cur` is the reversed word collected so far. -/
def splitWsAux : Chars → Chars → List Chars
  | cur, [] => if cur = [] then [] else [cur.reverse]
  | cur, c :: rest =>
    if Char.isWhitespace c then
      if cur = [] then splitWsAux [] rest else cur.reverse :: splitWsAux [] rest
    else
      splitWsAux (c :: cur) rest

/-- Python `str.split()` with no argument: split on whitespace runs, dropping
empty pieces. -/
def splitWs (s : Chars) : List Chars := splitWsAux [] s

/-- Python `' '.join(ws)`. -/
def joinSpace : List Chars → Chars
  | [] => []
  | [w] => w
  | w :: ws => w ++ ' ' :: joinSpace ws

/-- Python `str.capitalize()`: first character uppercased, the rest lowercased. -/
def pyCapitalize : Chars → Chars
  | [] => []
  | c :: rest => c.toUpper :: lowerStr rest

/-- A regex `\w` word character (ASCII fragment, sufficient for the data here). -/
def isWordChar (c : Char) : Bool := c.isAlphanum || c = '_'

/-- A `\b` boundary holds before a word character when the previous character
(`none` at the start of the string) is not a word character. -/
def boundaryB : Option Char → Bool
  | none => true
  | some c => !isWordChar c

/-- Does `re.IGNORECASE` matching of `\b pat \b` succeed at the head of `s`,
given the character just before `s`?  All patterns used start and end with a
word character. -/
def wwHeadMatch (pat s : Chars) (prev : Option Char) : Bool :=
  prefCI pat s && boundaryB prev &&
    (match List.drop pat.length s with
     | [] => true
     | c :: _ => !isWordChar c)

/-- Scanner counting whole-word case-insensitive matches (`re.findall` with a
`\b pat \b` pattern); `skip` skips over the remainder of a previous match. -/
def wwCountAux (pat : Chars) : Chars → Option Char → Nat → Nat
  | [], _, _ => 0
  | c :: rest, _, skip + 1 => wwCountAux pat rest (some c) skip
  | c :: rest, prev, 0 =>
    if wwHeadMatch pat (c :: rest) prev then
      1 + wwCountAux pat rest (some c) (pat.length - 1)
    else
      wwCountAux pat rest (some c) 0

/-- Number of whole-word, case-insensitive occurrences of `pat` in `s`:
`len(re.findall(r'\b pat \b', s.lower()))`. -/
def wwCount (pat s : Chars) : Nat := wwCountAux pat s none 0

/-- Replace the first whole-word case-insensitive occurrence of `pat` in `s`
with `mk matched`, where `matched` is the original-case matched token:
`re.sub(pattern, f, s, count=1, flags=re.IGNORECASE)`. -/
def wwReplaceFirstAux (pat : Chars) (mk : Chars → Chars) : Chars → Option Char → Chars
  | [], _ => []
  | c :: rest, prev =>
    if wwHeadMatch pat (c :: rest) prev then
      mk (List.take pat.length (c :: rest)) ++ List.drop pat.length (c :: rest)
    else
      c :: wwReplaceFirstAux pat mk rest (some c)

/-- Replace the first whole-word occurrence of `pat` (case-insensitive). -/
def wwReplaceFirst (pat : Chars) (mk : Chars → Chars) (s : Chars) : Chars :=
  wwReplaceFirstAux pat mk s none

/-- Scanner replacing every whole-word case-insensitive occurrence of `pat`
with `rep`: `re.sub(r'\b pat \b', rep, s, flags=re.IGNORECASE)`. -/
def wwReplaceAllAux (pat rep : Chars) : Chars → Option Char → Nat → Chars
  | [], _, _ => []
  | c :: rest, _, skip + 1 => wwReplaceAllAux pat rep rest (some c) skip
  | c :: rest, prev, 0 =>
    if wwHeadMatch pat (c :: rest) prev then
      rep ++ wwReplaceAllAux pat rep rest (some c) (pat.length - 1)
    else
      c :: wwReplaceAllAux pat rep rest (some c) 0

/-- Replace every whole-word occurrence of `pat` by `rep` (case-insensitive). -/
def wwReplaceAll (pat rep s : Chars) : Chars := wwReplaceAllAux pat rep s none 0

example : splitWs (chars "  a bc  d ") = [chars "a", chars "bc", chars "d"] := by decide
example : replaceAll (chars "Senior Senior dev") (chars "Senior") [] = chars "  dev" := by decide
example : splitAll (chars ",") (chars "a,,b") = [chars "a", chars "", chars "b"] := by decide
example : stripStr (chars "  hi ") = chars "hi" := by decide
example : wwCount (chars "developed") (chars "Developed and developed; redeveloped") = 2 := by decide
example : wwReplaceAll (chars "utilize") (chars "use") (chars "We Utilize utilizers") = chars "We use utilizers" := by decide
example : wwReplaceFirst (chars "developed") (fun _ => chars "built") (chars "x developed y developed") = chars "x built y developed" := by decide

/-! ### Markdown bold → HTML (`convert_markdown_bold_to_html`, resume_tailor.py lines 304-322)

The regex `re.sub(r'\*\*(.+?)\*\*', r'<strong>\1</strong>', text)` is embedded
by `subBold`.  `scanBody` finds, for text following an opening `**`, the lazily
matched group `(.+?)` (at least one character, no newline since `.` does not
match `\n`) followed by the closing `**`, returning the group and the text
after the closing delimiter. -/

/-- Does the string start with the two characters `**`? -/
def startsStars : Chars → Bool
  | '*' :: '*' :: _ => true
  | _ => false

/-- Lazy search for the closing `**` after an opening `**`: returns the
shortest nonempty newline-free group and the remainder after the closing. -/
def scanBody : Chars → Option (Chars × Chars)
  | [] => none
  | c :: rest =>
    if c = '\n' then none
    else if startsStars rest then some ([c], rest.drop 2)
    else (scanBody rest).map (fun p => (c :: p.1, p.2))

/-- Scanner for `subBold`; `skip` discards the remainder of a replaced span. -/
def subBoldAux : Nat → Chars → Chars
  | skip + 1, _ :: rest => subBoldAux skip rest
  | _ + 1, [] => []
  | 0, [] => []
  | 0, '*' :: '*' :: rest =>
    match scanBody rest with
    | some (g, _) => chars "<strong>" ++ g ++ chars "</strong>" ++ subBoldAux (g.length + 2) rest
    | none => '*' :: subBoldAux 0 ('*' :: rest)
  | 0, c :: rest => c :: subBoldAux 0 rest

/-- `re.sub(r'\*\*(.+?)\*\*', r'<strong>\1</strong>', s)` on one string. -/
def subBold (s : Chars) : Chars := subBoldAux 0 s

/-- The untyped JSON-like values that `convert_markdown_bold_to_html` walks:
Python dicts, lists, strings and anything else (left untouched). -/
inductive JVal where
  | s (v : Chars)
  | arr (items : List JVal)
  | obj (fields : List (Chars × JVal))
  | other

mutual

/-- resume_tailor.py lines 304-322: recursively convert markdown `**bold**`
spans to `<strong>` tags in every string value of a dict/list structure. -/
def convert_markdown_bold_to_html : JVal → JVal
  | .s v => .s (subBold v)
  | .arr items => .arr (convertBoldList items)
  | .obj fields => .obj (convertBoldFields fields)
  | .other => .other

/-- List case of the recursive walk. -/
def convertBoldList : List JVal → List JVal
  | [] => []
  | v :: rest => convert_markdown_bold_to_html v :: convertBoldList rest

/-- Dict case of the recursive walk: values converted, keys untouched. -/
def convertBoldFields : List (Chars × JVal) → List (Chars × JVal)
  | [] => []
  | (k, v) :: rest => (k, convert_markdown_bold_to_html v) :: convertBoldFields rest

end

/-- Does a string contain the two-character substring `**`? -/
def hasDoubleStar : Chars → Bool
  | '*' :: '*' :: _ => true
  | _ :: rest => hasDoubleStar rest
  | [] => false

mutual

/-- Does any string value in the structure contain `**`? -/
def jvalHasDoubleStar : JVal → Bool
  | .s v => hasDoubleStar v
  | .arr items => jvalListHasDoubleStar items
  | .obj fields => jvalFieldsHasDoubleStar fields
  | .other => false

/-- List case of `jvalHasDoubleStar`. -/
def jvalListHasDoubleStar : List JVal → Bool
  | [] => false
  | v :: rest => jvalHasDoubleStar v || jvalListHasDoubleStar rest

/-- Dict case of `jvalHasDoubleStar` (keys are not string *values* of the
walk, so only values are inspected, as in the source). -/
def jvalFieldsHasDoubleStar : List (Chars × JVal) → Bool
  | [] => false
  | (_, v) :: rest => jvalHasDoubleStar v || jvalFieldsHasDoubleStar rest

end

example : subBold (chars "a **b** c **d** e") = chars "a <strong>b</strong> c <strong>d</strong> e" := by decide
example : subBold (chars "****") = chars "****" := by decide
example : subBold (chars "*****a**") = chars "<strong>*</strong>a**" := by decide
example : subBold (chars "****a**") = chars "<strong>**a</strong>" := by decide
example : subBold (chars "a **") = chars "a **" := by decide

/-! ### Resume document data model

The Python code manipulates the resume as an untyped nested dict.  The fields
that the embedded transformations touch are modelled as a typed structure; the
source's `dict.get(key, default)` accesses are modelled by always-present
fields (an absent key behaves as the default value `""`/`[]`), and `contact`
is collapsed to its `location` key, the only contact entry the modelled
passes inspect or modify. -/

/-- One experience entry (`ExperienceEntry` of the spec). -/
structure Experience where
  title : Chars
  company : Chars
  period : Chars
  summary : Chars
  highlights : List Chars
  skills : List Chars
deriving DecidableEq

/-- The `skills` field: either a categorized dict or a flat list. -/
inductive SkillsVal where
  | dict (cats : List (Chars × List Chars))
  | flat (l : List Chars)
deriving DecidableEq

/-- The education record (modelled as a single dict). -/
structure EducationVal where
  degree : Chars
  university : Chars
  period : Chars
  description : Chars
deriving DecidableEq

/-- A resume document (`TailoredResume`). -/
structure Doc where
  name : Chars
  headline : Chars
  location : Chars
  summary : Chars
  experience : List Experience
  skills : SkillsVal
  education : EducationVal
deriving DecidableEq

/-! ### Career progression (`enforce_career_progression`, resume_tailor.py lines 324-406) -/

/-- The seniority markers checked for the first and last entries. -/
def seniorMarkers : List Chars :=
  [chars "Senior", chars "Lead", chars "Principal", chars "Staff"]

/-- The level qualifiers stripped during domain derivation and from interior
entries (lines 346 and 395). -/
def allLevelQualifiers : List Chars :=
  [chars "Senior", chars "Lead", chars "Principal", chars "Staff",
   chars "Junior", chars "Mid-level", chars "Mid"]

/-- The level qualifiers stripped from the last (oldest) entry (line 374). -/
def lastLevelQualifiers : List Chars :=
  [chars "Senior", chars "Lead", chars "Principal", chars "Staff",
   chars "Mid-level", chars "Mid"]

/-- `any(word.lower() in title.lower() for word in [Senior, Lead, Principal, Staff])`. -/
def hasMarkerB (t : Chars) : Bool :=
  seniorMarkers.any (fun w => substrB (lowerStr w) (lowerStr t))

/-- Lines 345-347: strip every level qualifier (case-sensitively, with a strip
after each replacement) from a title, for domain derivation. -/
def stripAllQualifiers (t : Chars) : Chars :=
  allLevelQualifiers.foldl (fun acc p => stripStr (replaceAll acc p [])) t

/-- Lines 374-377 / 394-398: find the first qualifier in `plist` occurring
case-insensitively in `t`; remove its case-sensitive occurrences and strip,
then stop (the loop `break`s after the first match). -/
def removeFirstQualifier (plist : List Chars) (t : Chars) : Chars :=
  match plist.find? (fun p => substrB (lowerStr p) (lowerStr t)) with
  | some p => stripStr (replaceAll t p [])
  | none => t

/-- Lines 341-348: the effective domain, derived from the first title when no
`job_domain` was supplied (falling back to `"Developer"` when stripping leaves
nothing). -/
def effectiveDomain (firstTitle : Chars) (job_domain : Chars) : Chars :=
  if job_domain = [] then
    let c := stripAllQualifiers firstTitle
    if c = [] then chars "Developer" else c
  else job_domain

/-- Lines 350-354: domain as-is when it contains `Developer`/`Engineer`
(case-sensitively), else `"<domain> Developer"`. -/
def baseTitleOf (domain : Chars) : Chars :=
  if substrB (chars "Developer") domain || substrB (chars "Engineer") domain then domain
  else domain ++ chars " Developer"

/-- Lines 356-367: new title of the first (most recent) entry. -/
def firstEntryTitle (domain base firstTitle : Chars) : Chars :=
  if ¬ hasMarkerB firstTitle then
    chars "Senior " ++ base
  else if ¬ substrB (lowerStr domain) (lowerStr firstTitle) then
    match seniorMarkers.find? (fun p => substrB (lowerStr p) (lowerStr firstTitle)) with
    | some p => p ++ ' ' :: base
    | none => firstTitle
  else firstTitle

/-- Lines 369-388: new title of the last (oldest) entry, for `num ≥ 2`. -/
def lastEntryTitle (domain base lastTitle : Chars) (num : Nat) : Chars :=
  let clean := removeFirstQualifier lastLevelQualifiers lastTitle
  if hasMarkerB clean then
    if 1 < num then chars "Junior " ++ base else base
  else if ¬ substrB (lowerStr domain) (lowerStr clean) then
    if 2 < num then chars "Junior " ++ base else base
  else clean

/-- Lines 390-404: new title of an interior entry. -/
def middleEntryTitle (domain base midTitle : Chars) : Chars :=
  let clean := removeFirstQualifier allLevelQualifiers midTitle
  if ¬ substrB (lowerStr domain) (lowerStr clean) then base
  else clean

/-- Map with the element index, starting at `k`. -/
def mapWI (f : Nat → α → β) : Nat → List α → List β
  | _, [] => []
  | k, a :: as => f k a :: mapWI f (k + 1) as

/-- The per-position title rule of `enforce_career_progression`: index 0 is
the most recent entry, index `num - 1` the oldest, the rest interior. -/
def enforcedEntry (domain base : Chars) (num : Nat) (i : Nat) (e : Experience) : Experience :=
  if i = 0 then { e with title := firstEntryTitle domain base e.title }
  else if i = num - 1 then { e with title := lastEntryTitle domain base e.title num }
  else { e with title := middleEntryTitle domain base e.title }

/-- resume_tailor.py lines 324-406: enforce the career-progression ladder on
the experience titles.  The three positional rules read the original titles
(the source mutates indices `0`, `-1` and the interior ones exactly once
each, and derives the domain before any mutation). -/
def enforce_career_progression (d : Doc) (job_domain : Chars) : Doc :=
  match d.experience with
  | [] => d
  | e0 :: _ =>
    let exps := d.experience
    let domain := effectiveDomain e0.title job_domain
    { d with
      experience := mapWI (enforcedEntry domain (baseTitleOf domain) exps.length) 0 exps }

example :
    (enforce_career_progression
      { name := chars "A", headline := [], location := [],
        summary := [],
        experience := [⟨chars "Python Developer", [], [], [], [], []⟩],
        skills := .flat [], education := ⟨[], [], [], []⟩ } []).experience.map Experience.title
      = [chars "Senior Python Developer"] := by decide

/-! ### Verb repetition repair (`fix_repetitive_verbs`, resume_tailor.py lines 7-181) -/

/-- The fixed verb dictionary (lines 16-33). -/
def verb_alternatives : List (Chars × List Chars) := [
  (chars "architected", [chars "engineered", chars "designed", chars "built", chars "constructed",
    chars "developed", chars "crafted", chars "established", chars "pioneered"]),
  (chars "architecting", [chars "engineering", chars "designing", chars "building",
    chars "constructing", chars "developing", chars "crafting"]),
  (chars "developed", [chars "architected", chars "engineered", chars "built", chars "designed",
    chars "created", chars "implemented", chars "delivered", chars "constructed",
    chars "established", chars "pioneered"]),
  (chars "developing", [chars "architecting", chars "engineering", chars "building",
    chars "designing", chars "creating", chars "implementing", chars "delivering"]),
  (chars "optimized", [chars "enhanced", chars "streamlined", chars "improved", chars "refined",
    chars "upgraded", chars "boosted", chars "maximized"]),
  (chars "created", [chars "established", chars "founded", chars "built", chars "designed",
    chars "launched", chars "pioneered", chars "initiated", chars "introduced"]),
  (chars "implemented", [chars "deployed", chars "integrated", chars "executed",
    chars "established", chars "introduced", chars "rolled out", chars "delivered"]),
  (chars "built", [chars "architected", chars "engineered", chars "constructed",
    chars "developed", chars "designed", chars "crafted", chars "assembled"]),
  (chars "designed", [chars "architected", chars "crafted", chars "created", chars "engineered",
    chars "planned", chars "conceptualized", chars "modeled"]),
  (chars "led", [chars "spearheaded", chars "orchestrated", chars "managed", chars "directed",
    chars "headed", chars "guided", chars "championed"]),
  (chars "managed", [chars "orchestrated", chars "supervised", chars "coordinated",
    chars "oversaw", chars "directed", chars "administered", chars "governed"]),
  (chars "improved", [chars "enhanced", chars "optimized", chars "upgraded", chars "refined",
    chars "boosted", chars "elevated", chars "advanced"]),
  (chars "increased", [chars "boosted", chars "enhanced", chars "amplified", chars "expanded",
    chars "scaled", chars "multiplied", chars "accelerated"]),
  (chars "reduced", [chars "minimized", chars "decreased", chars "lowered", chars "cut",
    chars "slashed", chars "diminished", chars "curtailed"]),
  (chars "collaborated", [chars "partnered", chars "worked with", chars "cooperated",
    chars "teamed up", chars "joined forces"]),
  (chars "delivered", [chars "executed", chars "completed", chars "achieved",
    chars "accomplished", chars "realized", chars "fulfilled"])]

/-- A reference into the document identifying where a collected text came
from: the Python code stores either the string `"summary"` or the experience
dict object itself; dict identity is modelled by the index. -/
inductive TxtRef where
  | docSummary
  | exp (i : Nat)
deriving DecidableEq

/-- Collect `(source, text)` pairs for one experience (lines 44-50): each
highlight, then the experience summary. -/
def expItems : Nat → List Experience → List (TxtRef × Chars)
  | _, [] => []
  | i, e :: rest =>
    e.highlights.map (fun h => (TxtRef.exp i, h)) ++ [(TxtRef.exp i, e.summary)]
      ++ expItems (i + 1) rest

/-- Lines 36-50: the document summary followed by every experience's
highlights and summary. -/
def collectTextItems (d : Doc) : List (TxtRef × Chars) :=
  (TxtRef.docSummary, d.summary) :: expItems 0 d.experience

/-- `verb_counts[v] = verb_counts.get(v, 0) + k` on an insertion-ordered dict. -/
def bumpCount : List (Chars × Nat) → Chars → Nat → List (Chars × Nat)
  | [], v, k => [(v, k)]
  | (u, c) :: rest, v, k =>
    if u = v then (u, c + k) :: rest else (u, c) :: bumpCount rest v k

/-- Lines 54-62, inner loop: count each dictionary verb in one text. -/
def countsForItem (m : List (Chars × Nat)) (t : Chars) : List (Chars × Nat) :=
  verb_alternatives.foldl
    (fun m p => let k := wwCount p.1 t; if 0 < k then bumpCount m p.1 k else m) m

/-- Lines 54-62: the `verb_counts` dict in Python insertion order. -/
def verbCounts (items : List (TxtRef × Chars)) : List (Chars × Nat) :=
  items.foldl (fun m it => countsForItem m it.2) []

/-- Look up a verb's alternatives (`verb_alternatives.get(verb, [])`). -/
def lookupAlts (v : Chars) : List Chars :=
  ((verb_alternatives.find? (fun p => p.1 = v)).map Prod.snd).getD []

/-- Lines 83-93: the replacement for one match, cycling through the
alternatives and preserving the matched token's initial capitalization. -/
def altReplacement (alts : List Chars) (r : Nat) (matched : Chars) : Chars :=
  let alt := alts.getD (r % alts.length) []
  match matched with
  | m :: _ => if m.isUpper then pyCapitalize alt else alt
  | [] => alt

/-- Value-level equality of sources (`s == source` on Python dicts compares by
value; the document summary source is the string `"summary"`). -/
def refEqB (d : Doc) : TxtRef → TxtRef → Bool
  | .docSummary, .docSummary => true
  | .exp i, .exp j => d.experience.get? i = d.experience.get? j
  | _, _ => false

/-- Replace the text of the first item satisfying `p` (the `for idx ... break`
searches of lines 102-122). -/
def updateFirstItem (p : TxtRef × Chars → Bool) (newText : Chars) :
    List (TxtRef × Chars) → List (TxtRef × Chars)
  | [] => []
  | it :: rest =>
    if p it then (it.1, newText) :: rest else it :: updateFirstItem p newText rest

/-- Lines 98-122: write `newT` back into the document (summary, or the first
equal highlight, or the experience summary) and refresh the first matching
entry of `all_text_items`. -/
def applyUpdate (d : Doc) (items : List (TxtRef × Chars)) (ref : TxtRef)
    (oldT newT : Chars) : Doc × List (TxtRef × Chars) :=
  match ref with
  | .docSummary =>
    let d' := { d with summary := newT }
    (d', updateFirstItem (fun it => refEqB d' it.1 .docSummary && it.2 = oldT) newT items)
  | .exp i =>
    match d.experience.get? i with
    | none => (d, items)
    | some e =>
      if oldT ∈ e.highlights then
        let hIdx := e.highlights.findIdx (· = oldT)
        let e' := { e with highlights := e.highlights.set hIdx newT }
        let d' := { d with experience := d.experience.set i e' }
        (d', updateFirstItem (fun it => refEqB d' it.1 (.exp i) && it.2 = oldT) newT items)
      else if e.summary = oldT then
        let e' := { e with summary := newT }
        let d' := { d with experience := d.experience.set i e' }
        (d', updateFirstItem (fun it => refEqB d' it.1 (.exp i) && it.2 = oldT) newT items)
      else (d, items)

/-- State threaded through the replacement loop of one over-used verb. -/
structure FixSt where
  doc : Doc
  items : List (TxtRef × Chars)
  rcount : Nat

/-- Lines 75-122, one iteration over `all_text_items` (by position, since the
Python list is mutated while being iterated): replace the first occurrence of
the verb in this text if the budget allows. -/
def fixItemStep (v : Chars) (alts : List Chars) (needed : Nat) (st : FixSt) (k : Nat) : FixSt :=
  match st.items.get? k with
  | none => st
  | some (ref, text) =>
    if st.rcount < needed ∧ 0 < wwCount v text then
      let newText := wwReplaceFirst v (altReplacement alts st.rcount) text
      let r' := st.rcount + 1
      if newText ≠ text then
        let p := applyUpdate st.doc st.items ref text newText
        ⟨p.1, p.2, r'⟩
      else ⟨st.doc, st.items, r'⟩
    else st

/-- Lines 65-122, per verb of `verb_counts`: fix a verb used more than twice. -/
def fixVerbStep (st : Doc × List (TxtRef × Chars)) (vc : Chars × Nat) :
    Doc × List (TxtRef × Chars) :=
  let alts := lookupAlts vc.1
  if 2 < vc.2 ∧ alts ≠ [] then
    let res := (List.range st.2.length).foldl (fixItemStep vc.1 alts (vc.2 - 2)) ⟨st.1, st.2, 0⟩
    (res.doc, res.items)
  else st

/-- Lines 35-122: count verbs resume-wide, then replace occurrences of each
verb beyond the two allowed. -/
def fixVerbsPhase1 (d : Doc) : Doc :=
  let items := collectTextItems d
  ((verbCounts items).foldl fixVerbStep (d, items)).1

/-- The duplicate-word alternative table (lines 126-134). -/
def verb_alternatives_for_duplicates : List (Chars × List Chars) := [
  (chars "architected", [chars "engineered", chars "designed", chars "built", chars "constructed"]),
  (chars "architecting", [chars "engineering", chars "designing", chars "building", chars "constructing"]),
  (chars "developed", [chars "engineered", chars "built", chars "designed", chars "created"]),
  (chars "designed", [chars "architected", chars "crafted", chars "created", chars "engineered"]),
  (chars "built", [chars "architected", chars "engineered", chars "constructed", chars "developed"]),
  (chars "created", [chars "established", chars "built", chars "designed", chars "launched"]),
  (chars "implemented", [chars "deployed", chars "integrated", chars "executed", chars "established"])]

/-- `re.sub(r'[^\w]', '', word.lower())` (line 147). -/
def cleanWord (w : Chars) : Chars := (lowerStr w).filter isWordChar

/-- First alternative for a duplicated word:
`verb_alternatives_for_duplicates.get(word_clean, ["engineered", "designed", "built"])[0]`. -/
def dupAlternative (wc : Chars) : Chars :=
  (((verb_alternatives_for_duplicates.find? (fun p => p.1 = wc)).map Prod.snd).getD
    [chars "engineered", chars "designed", chars "built"]).headD []

/-- Lines 149-155: the replacement for a duplicated word — the table's first
alternative (or the fallback `"engineered"`), capitalized when the original
word starts with an uppercase letter. -/
def dupReplacementFor (w : Chars) : Chars :=
  let alt := dupAlternative (cleanWord w)
  match w with
  | c :: _ => if c.isUpper then pyCapitalize alt else alt
  | [] => alt

/-- Lines 144-158: walk the words, replacing any word whose cleaned lowercase
form was already seen; `seen` collects the cleaned forms of kept words. -/
def fixDupGo (seen : List Chars) : List Chars → List Chars
  | [] => []
  | w :: rest =>
    if cleanWord w ≠ [] ∧ cleanWord w ∈ seen then dupReplacementFor w :: fixDupGo seen rest
    else w :: fixDupGo (cleanWord w :: seen) rest

/-- Lines 138-160 (and identically 162-179 for the experience summary): repair
duplicate words within one string; the string is rewritten (single-space
joined) only when some word changed — the word count never changes, so the
source's `len(fixed_words) == len(words)` guard is always true. -/
def fixDupWords (s : Chars) : Chars :=
  let ws := splitWs s
  let fixed := fixDupGo [] ws
  if fixed ≠ ws then joinSpace fixed else s

/-- Lines 124-179: the intra-string duplicate-word pass over every experience
highlight and experience summary. -/
def fixVerbsPhase2 (d : Doc) : Doc :=
  { d with experience := d.experience.map (fun e =>
      { e with summary := fixDupWords e.summary,
               highlights := e.highlights.map fixDupWords }) }

/-- resume_tailor.py lines 7-181: the full verb-repetition repair. -/
def fix_repetitive_verbs (d : Doc) : Doc := fixVerbsPhase2 (fixVerbsPhase1 d)

/-- Total whole-word count of a verb across the collected texts (the quantity
bounded by the claims; occurrences are counted per field, as the source does). -/
def totalVerbCount (v : Chars) (d : Doc) : Nat :=
  ((collectTextItems d).map (fun it => wwCount v it.2)).sum

/-- The spec's verb cap: no dictionary verb occurs more than twice. -/
def verbCapOK (d : Doc) : Prop := ∀ p ∈ verb_alternatives, totalVerbCount p.1 d ≤ 2

/-! ### Buzzword removal (`remove_buzzwords`, resume_tailor.py lines 183-266) -/

/-- The buzzword replacement table (lines 189-210).  In the source,
`"utilize" or "use"` evaluates to `"utilize"` and `"committed" or "dedicated"`
evaluates to `"committed"`. -/
def buzzword_replacements : List (Chars × Chars) := [
  (chars "self-starter", chars "proactive professional"),
  (chars "self starter", chars "proactive professional"),
  (chars "attention to detail", chars "meticulous approach"),
  (chars "problem-solving", chars "analytical thinking"),
  (chars "problem solving", chars "analytical thinking"),
  (chars "proven track record", chars "demonstrated success"),
  (chars "proven track", chars "demonstrated"),
  (chars "team player", chars "collaborative professional"),
  (chars "hard worker", chars "dedicated professional"),
  (chars "go-getter", chars "results-driven"),
  (chars "think outside the box", chars "innovative approach"),
  (chars "synergy", chars "collaboration"),
  (chars "leverage", chars "utilize"),
  (chars "utilize", chars "use"),
  (chars "action-oriented", chars "results-driven"),
  (chars "detail-oriented", chars "meticulous"),
  (chars "passionate", chars "committed"),
  (chars "rockstar", chars "expert"),
  (chars "ninja", chars "specialist"),
  (chars "guru", chars "expert")]

/-- Apply every buzzword replacement, in table order, to one text. -/
def applyBuzz (s : Chars) : Chars :=
  buzzword_replacements.foldl (fun t p => wwReplaceAll p.1 p.2 t) s

/-- The buzzword skills removed from the skills section (lines 253 and 260). -/
def buzzword_skill_list : List Chars :=
  [chars "self-starter", chars "attention to detail", chars "problem-solving",
   chars "team player", chars "hard worker"]

/-- The soft-skill category names probed (line 248). -/
def buzzCats : List Chars := [chars "Soft Skills", chars "soft_skills", chars "Soft skills"]

/-- Dict lookup on the categorized skills. -/
def lookupCat (cats : List (Chars × List Chars)) (k : Chars) : Option (List Chars) :=
  (cats.find? (fun p => p.1 = k)).map Prod.snd

/-- Dict value update (key order preserved, as in a Python dict). -/
def setCat (k : Chars) (v : List Chars) : List (Chars × List Chars) → List (Chars × List Chars)
  | [] => []
  | p :: rest => if p.1 = k then (k, v) :: rest else p :: setCat k v rest

/-- Dict key deletion. -/
def delCat (k : Chars) : List (Chars × List Chars) → List (Chars × List Chars)
  | [] => []
  | p :: rest => if p.1 = k then rest else p :: delCat k rest

/-- Lines 248-257: filter buzzword skills out of one soft-skill category,
deleting the category when it becomes empty. -/
def cleanSoftCat (cats : List (Chars × List Chars)) (k : Chars) : List (Chars × List Chars) :=
  match lookupCat cats k with
  | none => cats
  | some l =>
    let l' := l.filter (fun sk => ¬ lowerStr sk ∈ buzzword_skill_list)
    if l' = [] then delCat k cats else setCat k l' cats

/-- resume_tailor.py lines 183-266: buzzword replacement over the summary,
experience summaries and highlights, plus buzzword-skill removal. -/
def remove_buzzwords (d : Doc) : Doc :=
  let d1 := { d with
    summary := applyBuzz d.summary,
    experience := d.experience.map (fun (e : Experience) =>
      { e with summary := applyBuzz e.summary, highlights := e.highlights.map applyBuzz }) }
  { d1 with skills :=
      match d1.skills with
      | .dict cats => .dict (buzzCats.foldl cleanSoftCat cats)
      | .flat l => .flat (l.filter (fun sk => ¬ lowerStr sk ∈ buzzword_skill_list)) }

/-- resume_tailor.py lines 268-302 (`add_quantification_to_bullets`): the
source scans highlights for quantification patterns but explicitly takes no
corrective action ("we'll leave it as-is since we can't fabricate numbers"),
so the function is the identity on the document. -/
def add_quantification_to_bullets (d : Doc) : Doc := d

/-! ### Address validation and repair (resume_tailor.py lines 535-554, 1023-1043) -/

/-- resume_tailor.py lines 535-554 (`validate_address`): the location must be
non-blank, have at least two comma-separated components, and be at least five
characters after stripping.  The source returns `(bool, message)`; only the
boolean is consumed by the modelled callers. -/
def validate_address (location : Chars) : Bool :=
  if location = [] ∨ stripStr location = [] then false
  else if (splitAll (chars ",") location).length < 2 then false
  else if (stripStr location).length < 5 then false
  else true

/-- tailor_resume lines 1023-1043: complete an invalid location by appending
`", Indonesia"`, or install the placeholder when wholly missing. -/
def fixAddress (d : Doc) : Doc :=
  if validate_address d.location then d
  else if d.location ≠ [] then
    let parts := splitAll (chars ",") d.location
    if parts.length = 1 then { d with location := d.location ++ chars ", Indonesia" }
    else if parts.length = 2 then
      if ¬ substrB (chars "Indonesia") d.location ∧ ¬ substrB (chars "USA") d.location
          ∧ ¬ substrB (chars "United States") d.location then
        { d with location := d.location ++ chars ", Indonesia" }
      else d
    else d
  else { d with location := chars "City, State/Province, Country" }

/-! ### ATS skill backfill (tailor_resume, resume_tailor.py lines 1048-1098) -/

/-- The bidirectional case-insensitive substring check of lines 1067-1071. -/
def atsSkillFound (existingLower : List Chars) (sk : Chars) : Bool :=
  existingLower.any (fun ex => substrB (lowerStr sk) ex || substrB ex (lowerStr sk))

/-- tailor_resume lines 1048-1098: add missing hard skills to the skills
structure.  For categorized skills, missing skills go into a `"Technologies"`
category; the source merges with `list(set(existing + missing))`, whose
ordering Python leaves unspecified — the model fixes `List.dedup` order. -/
def atsBackfill (d : Doc) (hard_skills : List Chars) : Doc :=
  if hard_skills = [] then d
  else
    match d.skills with
    | .dict cats =>
      let existingLower := cats.foldl (fun acc p => acc ++ p.2.map lowerStr) []
      let missing := hard_skills.filter (fun sk => ¬ atsSkillFound existingLower sk)
      if missing ≠ [] then
        match lookupCat cats (chars "Technologies") with
        | some tech =>
          { d with skills := .dict (setCat (chars "Technologies") (List.dedup (tech ++ missing)) cats) }
        | none => { d with skills := .dict (cats ++ [(chars "Technologies", missing)]) }
      else d
    | .flat l =>
      let existingLower := l.map lowerStr
      let toAdd := hard_skills.filter (fun sk =>
        ¬ lowerStr sk ∈ existingLower ∧ ¬ atsSkillFound existingLower sk)
      { d with skills := .flat (l ++ toAdd) }

/-! ### The Document Post-Processor composition (tailor_resume, lines 1019-1106) -/

/-- tailor_resume lines 1019-1021: overwrite the headline when one was
computed upstream. -/
def injectHeadline (d : Doc) (headline : Chars) : Doc :=
  if headline ≠ [] then { d with headline := headline } else d

/-- The bold walk of `convert_markdown_bold_to_html` restricted to one
experience entry of the typed document. -/
def convertBoldExperience (e : Experience) : Experience :=
  ⟨subBold e.title, subBold e.company, subBold e.period, subBold e.summary,
   e.highlights.map subBold, e.skills.map subBold⟩

/-- The bold walk on the skills value (dict keys are left untouched, as the
source converts only dict values). -/
def convertBoldSkillsVal : SkillsVal → SkillsVal
  | .dict cats => .dict (cats.map (fun p => (p.1, p.2.map subBold)))
  | .flat l => .flat (l.map subBold)

/-- `convert_markdown_bold_to_html` instantiated at the typed document: every
string value of the structure runs through `subBold`. -/
def convertBoldDoc (d : Doc) : Doc :=
  ⟨subBold d.name, subBold d.headline, subBold d.location, subBold d.summary,
   d.experience.map convertBoldExperience, convertBoldSkillsVal d.skills,
   ⟨subBold d.education.degree, subBold d.education.university,
    subBold d.education.period, subBold d.education.description⟩⟩

/-- tailor_resume lines 1019-1106: the Document Post-Processor — headline
injection, address repair, career-progression enforcement, ATS skill
backfill, verb-repetition repair, buzzword removal, the (no-op)
quantification pass, and markdown-bold normalization, in source order. -/
def postProcess (headline domain : Chars) (hard_skills : List Chars) (d : Doc) : Doc :=
  convertBoldDoc (add_quantification_to_bullets (remove_buzzwords (fix_repetitive_verbs
    (atsBackfill (enforce_career_progression (fixAddress (injectHeadline d headline)) domain)
      hard_skills))))

/-! ### Response extraction and the pipeline's failure mode
(tailor_resume, resume_tailor.py lines 1004-1131) -/

/-- The fence markers. -/
def fenceJson : Chars := chars "```json"

/-- The plain fence marker (written via `chars` so the backtick characters
live inside a string literal). -/
def fencePlain : Chars := chars "```"

/-- The part of `s` before the first occurrence of `pat`, or all of `s` when
`pat` does not occur (`s.split(pat, 1)[0]`). -/
def beforeOrAll (pat s : Chars) : Chars :=
  match splitOnce pat s with
  | some p => p.1
  | none => s

/-- The `elif`/`else` branches of tailor_resume lines 1012-1015. -/
def extractJsonPayloadNoJsonFence (text : Chars) : Chars :=
  match splitOnce fencePlain text with
  | some (_, after) =>
    match splitOnce fencePlain after with
    | some (before, _) => stripStr before
    | none => text
  | none => text

/-- tailor_resume lines 1009-1015: extract the JSON payload from the raw
response — the contents of a ` ```json ` or plain ` ``` ` fenced block when a
closing fence exists after the opening one, else the whole text. -/
def extractJsonPayload (text : Chars) : Chars :=
  match splitOnce fenceJson text with
  | some (_, after) =>
    match splitOnce fencePlain after with
    | some (before, _) => stripStr before
    | none => extractJsonPayloadNoJsonFence text
  | none => extractJsonPayloadNoJsonFence text

/-- The diagnostic file written on parse failure (line 1126); the timestamp
string is a parameter of the model. -/
def raw_file_path (ts : Chars) : Chars :=
  chars "output/tailored_resume_raw_" ++ ts ++ chars ".txt"

/-- The JSON output file of the success path (line 1113). -/
def json_file_path (ts : Chars) : Chars :=
  chars "output/tailored_resume_" ++ ts ++ chars ".json"

/-- Outcome of the post-response phase of `tailor_resume`: either the
post-processed document together with its storage path, or the failure
carrying the diagnostic file's path, the file's content (the raw response
text, written verbatim) and the raised exception message. -/
inductive TailorOutcome where
  | ok (jsonPath : Chars) (doc : Doc)
  | failed (rawPath : Chars) (writtenContent : Chars) (message : Chars)
deriving DecidableEq

/-- tailor_resume lines 1006-1131, from the main generation response onward:
extract the payload, parse it (the `json.loads` call is the abstract
parameter `parse`), post-process on success; on `json.JSONDecodeError`, write
the raw response text verbatim to the timestamped diagnostic file and raise
an exception naming that path. -/
def tailorResponsePhase (parse : Chars → Option Doc) (headline domain : Chars)
    (hard_skills : List Chars) (responseText ts : Chars) : TailorOutcome :=
  match parse (extractJsonPayload responseText) with
  | some doc => .ok (json_file_path ts) (postProcess headline domain hard_skills doc)
  | none =>
    .failed (raw_file_path ts) responseText
      (chars "Failed to parse tailored resume as JSON. Raw output saved to " ++ raw_file_path ts)

/-- The SkillsAnalysis record (`extract_skills_for_ats`). -/
structure SkillsAnalysis where
  hard_skills : List Chars
  soft_skills : List Chars
  keywords : List Chars
  required_technologies : List Chars
  preferred_technologies : List Chars
deriving DecidableEq

/-- The all-empty default returned on any failure (lines 458-464). -/
def defaultSkillsAnalysis : SkillsAnalysis := ⟨[], [], [], [], []⟩

/-- The sub-call fence-stripping of lines 439-445 / 489-495: the opening
fence need not be closed (`split('```', 1)[0]` keeps everything when it is
not). -/
def extractJsonPayloadSub (text : Chars) : Chars :=
  match splitOnce fenceJson text with
  | some (_, after) => stripStr (beforeOrAll fencePlain after)
  | none =>
    match splitOnce fencePlain text with
    | some (_, after) => stripStr (beforeOrAll fencePlain after)
    | none => text

/-- resume_tailor.py lines 408-464 (`extract_skills_for_ats`): the generation
call's outcome and the JSON parse are abstract parameters; the function is
total — any exception (call failure or parse failure) is absorbed into the
all-empty default, and a successful parse has its five fields defaulted to
`[]` by the source's `result.get(field, [])`. -/
def extract_skills_for_ats (parse : Chars → Option SkillsAnalysis)
    (callResult : Except Chars Chars) : SkillsAnalysis :=
  match callResult with
  | .error _ => defaultSkillsAnalysis
  | .ok t =>
    match parse (extractJsonPayloadSub (stripStr t)) with
    | some r => r
    | none => defaultSkillsAnalysis

/-- The EducationRequirement record. -/
structure EducationRequirement where
  education_level : Chars
  degree_type : Chars
  is_required : Bool
  notes : Chars
deriving DecidableEq

/-- The fixed default of lines 500-506. -/
def defaultEducationRequirement : EducationRequirement :=
  ⟨chars "Not specified", chars "Any", false, []⟩

/-- resume_tailor.py lines 466-506 (`extract_education_requirements`): total;
failure of the call or of parsing degrades to the fixed default. -/
def extract_education_requirements (parse : Chars → Option EducationRequirement)
    (callResult : Except Chars Chars) : EducationRequirement :=
  match callResult with
  | .error _ => defaultEducationRequirement
  | .ok t =>
    match parse (extractJsonPayloadSub (stripStr t)) with
    | some r => r
    | none => defaultEducationRequirement

/-- The characters stripped from the extracted job title (line 573,
`strip('"\'`')`). -/
def titleStripSet : Chars := chars "\"'`"

/-- resume_tailor.py lines 556-579 (`extract_job_title`): total; any
exception degrades to the empty title. -/
def extract_job_title (callResult : Except Chars Chars) : Chars :=
  match callResult with
  | .error _ => []
  | .ok t =>
    let jt := stripChars titleStripSet (stripStr t)
    if prefB fencePlain jt then stripStr ((splitAll fencePlain jt).getD 1 []) else jt

/-! ### Batch row processing (`_process_one_batch_job`, main.py lines 223-338) -/

/-- One generated artifact (`GeneratedFile`). -/
structure GeneratedFile where
  ftype : Chars
  title : Chars
  folder : Chars
  filename : Chars
  path : Chars
  zip_path : Chars
deriving DecidableEq

/-- One per-row failure record (`RowError`). -/
structure RowError where
  row : Nat
  title : Chars
  error : Chars
deriving DecidableEq

/-- main.py lines 252-254: filesystem-safe person name — alphanumeric
characters of the name, truncated to 50, with `"Resume"` when the name is
empty (falsy). -/
def sanitizeName (personName : Chars) : Chars :=
  if personName = [] then chars "Resume"
  else List.take 50 (personName.filter Char.isAlphanum)

/-- The resume `GeneratedFile` entry of main.py lines 263-270. -/
def resumeEntry (jobTitle safeTitle builtDir batchDir : Chars) (doc : Doc) : GeneratedFile :=
  let fn := sanitizeName doc.name ++ chars "_resume.pdf"
  ⟨chars "resume", jobTitle, safeTitle, fn,
   builtDir ++ '/' :: safeTitle ++ '/' :: fn,
   batchDir ++ '/' :: safeTitle ++ '/' :: fn⟩

/-- The cover-letter `GeneratedFile` entry of main.py lines 288-295. -/
def coverLetterEntry (jobTitle safeTitle builtDir batchDir : Chars) : GeneratedFile :=
  ⟨chars "cover_letter", jobTitle, safeTitle, chars "cover_letter.pdf",
   builtDir ++ '/' :: safeTitle ++ '/' :: chars "cover_letter.pdf",
   batchDir ++ '/' :: safeTitle ++ '/' :: chars "cover_letter.pdf"⟩

/-- The question `GeneratedFile` entry of main.py lines 315-322. -/
def questionEntry (jobTitle safeTitle builtDir batchDir : Chars) : GeneratedFile :=
  ⟨chars "question", jobTitle, safeTitle, chars "question.pdf",
   builtDir ++ '/' :: safeTitle ++ '/' :: chars "question.pdf",
   batchDir ++ '/' :: safeTitle ++ '/' :: chars "question.pdf"⟩

/-- One batch row together with the outcomes of its fallible collaborator
calls (`tailor_resume`, the resume PDF rendering, cover-letter generation,
and question-answer generation — the latter covering the whole inner `try`
of lines 298-329). -/
structure RowSpec where
  rowNumber : Nat
  jobTitle : Chars
  safeTitle : Chars
  questions : List Chars
  tailorOutcome : Except Chars Doc
  resumeRenderOutcome : Except Chars Unit
  coverOutcome : Except Chars (Option Chars)
  questionOutcome : Except Chars (List Chars)

/-- main.py lines 223-338 (`_process_one_batch_job`): the per-row worker.
Any exception up to and including cover-letter handling is caught by the
outer `except` (lines 331-336) and recorded as one `RowError`, keeping the
files generated so far; an exception in the question step alone is caught by
the inner `except` (lines 323-329) with its distinctive message prefix. -/
def processOneBatchJob (builtDir batchDir : Chars) (r : RowSpec) :
    List GeneratedFile × List RowError :=
  match r.tailorOutcome with
  | .error e => ([], [⟨r.rowNumber, r.jobTitle, e⟩])
  | .ok doc =>
    match r.resumeRenderOutcome with
    | .error e => ([], [⟨r.rowNumber, r.jobTitle, e⟩])
    | .ok _ =>
      let files1 := [resumeEntry r.jobTitle r.safeTitle builtDir batchDir doc]
      match r.coverOutcome with
      | .error e => (files1, [⟨r.rowNumber, r.jobTitle, e⟩])
      | .ok copt =>
        let files2 := match copt with
          | none => files1
          | some _ => files1 ++ [coverLetterEntry r.jobTitle r.safeTitle builtDir batchDir]
        if r.questions = [] then (files2, [])
        else
          match r.questionOutcome with
          | .ok _ => (files2 ++ [questionEntry r.jobTitle r.safeTitle builtDir batchDir], [])
          | .error e =>
            (files2, [⟨r.rowNumber, r.jobTitle,
              chars "Failed to generate question PDF: " ++ e⟩])

/-- main.py lines 799-821: run every row's work unit and aggregate the
generated files and row errors in submission order (`asyncio.gather`
preserves order, and the `extend` loop concatenates). -/
def runBatch (builtDir batchDir : Chars) (rows : List RowSpec) :
    List GeneratedFile × List RowError :=
  rows.foldl (fun acc r =>
    let p := processOneBatchJob builtDir batchDir r
    (acc.1 ++ p.1, acc.2 ++ p.2)) ([], [])

/-! ### The model gateway (`ClaudeModelWrapper`, main.py lines 74-184) -/

/-- Gateway state: which backends are configured, and the sticky
`credit_exhausted` flag. -/
structure Gateway where
  hasClaudeClient : Bool
  hasOpenaiClient : Bool
  credit_exhausted : Bool
deriving DecidableEq

/-- Outcome of the primary (Claude) backend call: returned content (possibly
empty — the source then raises internally and falls into its own `except`),
or a raised exception with its message and optional HTTP status code. -/
inductive ClaudeOutcome where
  | ok (content : Chars)
  | raised (msg : Chars) (statusCode : Option Nat)

/-- main.py lines 121-125: the credit-error keyword vocabulary. -/
def credit_error_keywords : List Chars :=
  [chars "credit balance", chars "too low", chars "insufficient", chars "payment",
   chars "payment required", chars "billing", chars "account", chars "quota",
   chars "limit exceeded", chars "402", chars "payment_method"]

/-- main.py lines 126-131: keyword match on the lowercased message, or a 402
status code. -/
def isCreditError (msg : Chars) (statusCode : Option Nat) : Bool :=
  credit_error_keywords.any (fun k => substrB k (lowerStr msg)) || statusCode = some 402

/-- main.py lines 156-184 (`_use_openai`): wrap the OpenAI call, re-raising
any failure (including empty content) as `"OpenAI API error: ..."`. -/
def useOpenai (openaiOutcome : Except Chars Chars) : Except Chars Chars :=
  match openaiOutcome with
  | .ok c =>
    if c = [] then .error (chars "OpenAI API error: OpenAI API returned empty content")
    else .ok c
  | .error m => .error (chars "OpenAI API error: " ++ m)

/-- main.py lines 115-148: handle a Claude failure — classify, set the
sticky flag on a credit error, and fall through to OpenAI when configured. -/
def claudeFailure (g : Gateway) (msg : Chars) (sc : Option Nat)
    (openaiOutcome : Except Chars Chars) : Gateway × Except Chars Chars :=
  if isCreditError msg sc then
    let g' := { g with credit_exhausted := true }
    if g'.hasOpenaiClient then (g', useOpenai openaiOutcome)
    else (g', .error (chars "Claude API error (insufficient credits) and no OpenAI fallback available: " ++ msg))
  else
    if g.hasOpenaiClient then (g, useOpenai openaiOutcome)
    else (g, .error (chars "Claude API error: " ++ msg))

/-- main.py lines 82-154 (`generate_content`): reset `credit_exhausted`,
try Claude (empty content raises into the handler), classify failures and
fall back to OpenAI with the same prompt.  The backend call outcomes are
abstract parameters; the returned pair is the updated gateway state and the
result. -/
def generate_content (g : Gateway) (claudeOutcome : ClaudeOutcome)
    (openaiOutcome : Except Chars Chars) : Gateway × Except Chars Chars :=
  let g0 := { g with credit_exhausted := false }
  if g0.hasClaudeClient then
    match claudeOutcome with
    | .ok content =>
      if content ≠ [] then (g0, .ok content)
      else claudeFailure g0 (chars "Claude API returned empty content") none openaiOutcome
    | .raised m sc => claudeFailure g0 m sc openaiOutcome
  else if g0.hasOpenaiClient then (g0, useOpenai openaiOutcome)
  else (g0, .error (chars "No API client available"))

/-! ### The batch concurrency limiter (main.py lines 192-194, 799-818)

`tailor_resume_batch_endpoint` submits every row as a task that runs its work
unit inside `async with sem` for `sem = asyncio.Semaphore(max(1,
BATCH_MAX_CONCURRENCY))`.  The semaphore's contract (a task may enter only
while fewer than the cap hold it) is modelled as a guarded transition system
over the rows' phases; holding the semaphore is exactly executing the row's
work unit. -/

/-- `BATCH_MAX_CONCURRENCY = int(os.getenv("BATCH_MAX_CONCURRENCY", "3"))`,
at its default. -/
def batchMaxConcurrencyDefault : Nat := 3

/-- `asyncio.Semaphore(max(1, BATCH_MAX_CONCURRENCY))` (line 800). -/
def semLimit : Nat := max 1 batchMaxConcurrencyDefault

/-- Phase of one submitted row: not yet started, holding the semaphore
(executing its work unit), or finished. -/
inductive RowPhase where
  | pending
  | holding
  | done
deriving DecidableEq

/-- Number of rows currently holding the semaphore. -/
def countHolding (l : List RowPhase) : Nat := l.count RowPhase.holding

/-- One scheduler step: a pending row may acquire the semaphore only while
fewer than `limit` rows hold it; a holding row may finish and release. -/
inductive BatchStep (limit : Nat) : List RowPhase → List RowPhase → Prop
  | acquire (l : List RowPhase) (i : Nat) (hget : l[i]? = some RowPhase.pending)
      (hcap : countHolding l < limit) :
      BatchStep limit l (l.set i RowPhase.holding)
  | release (l : List RowPhase) (i : Nat) (hget : l[i]? = some RowPhase.holding) :
      BatchStep limit l (l.set i RowPhase.done)

/-- States reachable from submitting `n` rows. -/
inductive BatchReachable (limit n : Nat) : List RowPhase → Prop
  | init : BatchReachable limit n (List.replicate n RowPhase.pending)
  | step {s s'} : BatchReachable limit n s → BatchStep limit s s' → BatchReachable limit n s'

/-! ### Basic lemmas about the string primitives -/

theorem prefB_iff (p s : Chars) : prefB p s = true ↔ ∃ t, s = p ++ t := by
  induction p generalizing s with
  | nil => simp [prefB]
  | cons a as ih =>
    cases s with
    | nil => simp [prefB]
    | cons b bs =>
      simp only [prefB, Bool.and_eq_true, decide_eq_true_eq, ih, List.cons_append,
        List.cons.injEq]
      constructor
      · rintro ⟨rfl, t, rfl⟩; exact ⟨t, rfl, rfl⟩
      · rintro ⟨t, rfl, rfl⟩; exact ⟨rfl, t, rfl⟩

theorem substrB_iff (p s : Chars) : substrB p s = true ↔ ∃ a b, s = a ++ p ++ b := by
  induction s with
  | nil =>
    simp only [substrB, prefB_iff]
    constructor
    · rintro ⟨t, ht⟩
      exact ⟨[], t, by simpa using ht⟩
    · rintro ⟨a, b, h⟩
      have h' : a = [] ∧ p = [] ∧ b = [] := by simpa using h.symm
      exact ⟨[], by simp [h'.2.1]⟩
  | cons c rest ih =>
    simp only [substrB, Bool.or_eq_true, prefB_iff, ih]
    constructor
    · rintro (⟨t, ht⟩ | ⟨a, b, rfl⟩)
      · exact ⟨[], t, by simpa using ht⟩
      · exact ⟨c :: a, b, rfl⟩
    · rintro ⟨a, b, h⟩
      cases a with
      | nil => exact Or.inl ⟨b, by simpa using h⟩
      | cons x xs =>
        right
        simp only [List.cons_append, List.cons.injEq] at h
        exact ⟨xs, b, h.2⟩

theorem substrB_trans {p q r : Chars} (h1 : substrB p q = true) (h2 : substrB q r = true) :
    substrB p r = true := by
  rw [substrB_iff] at h1 h2 ⊢
  obtain ⟨a, b, rfl⟩ := h1
  obtain ⟨x, y, rfl⟩ := h2
  exact ⟨x ++ a, b ++ y, by simp⟩

theorem substrB_map {p s : Chars} (f : Char → Char) (h : substrB p s = true) :
    substrB (p.map f) (s.map f) = true := by
  rw [substrB_iff] at h ⊢
  obtain ⟨a, b, rfl⟩ := h
  exact ⟨a.map f, b.map f, by simp⟩

theorem prefB_substrB {p s : Chars} (h : prefB p s = true) : substrB p s = true := by
  rw [prefB_iff] at h
  obtain ⟨t, rfl⟩ := h
  rw [substrB_iff]
  exact ⟨[], t, by simp⟩

/-! ### C9: the batch concurrency bound -/

theorem countHolding_set_acquire (l : List RowPhase) (i : Nat)
    (h : l[i]? = some RowPhase.pending) :
    countHolding (l.set i RowPhase.holding) = countHolding l + 1 := by
  induction l generalizing i with
  | nil => simp at h
  | cons x rest ih =>
    cases i with
    | zero =>
      simp only [List.getElem?_cons_zero] at h
      obtain rfl := Option.some.inj h
      simp [countHolding, List.count_cons]
    | succ j =>
      simp only [List.getElem?_cons_succ] at h
      have := ih j h
      simp only [List.set_cons_succ, countHolding, List.count_cons] at this ⊢
      omega

theorem countHolding_set_release (l : List RowPhase) (i : Nat)
    (h : l[i]? = some RowPhase.holding) :
    countHolding l = countHolding (l.set i RowPhase.done) + 1 := by
  induction l generalizing i with
  | nil => simp at h
  | cons x rest ih =>
    cases i with
    | zero =>
      simp only [List.getElem?_cons_zero] at h
      obtain rfl := Option.some.inj h
      simp [countHolding, List.count_cons]
    | succ j =>
      simp only [List.getElem?_cons_succ] at h
      have := ih j h
      simp only [List.set_cons_succ, countHolding, List.count_cons] at this ⊢
      omega

/-- C9: in a batch run with the default concurrency limit (3), no reachable
scheduler state has more than 3 rows holding the semaphore — i.e. executing
their per-row work unit — simultaneously, for any number `n` of submitted
rows.  The semaphore guard is the acquire condition of `BatchStep`. -/
theorem batch_semaphore_bound (n : Nat) (s : List RowPhase)
    (h : BatchReachable semLimit n s) : countHolding s ≤ semLimit := by
  induction h with
  | init =>
    have h0 : countHolding (List.replicate n RowPhase.pending) = 0 := by
      simp [countHolding, List.count_replicate]
    rw [h0]
    exact Nat.zero_le _
  | @step t t' _ hstep ih =>
    cases hstep with
    | acquire i hget hcap =>
      rw [countHolding_set_acquire t i hget]
      omega
    | release i hget =>
      have := countHolding_set_release t i hget
      omega

/-- Witness for C9: a concrete reachable state of a 10-row batch with three
rows holding the semaphore satisfies the bound. -/
theorem batch_semaphore_bound_witness :
    countHolding
        (RowPhase.holding :: RowPhase.holding :: RowPhase.holding ::
          List.replicate 7 RowPhase.pending) ≤ semLimit := by
  have h0 : BatchReachable semLimit 10 (List.replicate 10 RowPhase.pending) :=
    BatchReachable.init
  have h1 := h0.step (BatchStep.acquire _ 0 (by decide) (by decide))
  have h2 := h1.step (BatchStep.acquire _ 1 (by decide) (by decide))
  have h3 := h2.step (BatchStep.acquire _ 2 (by decide) (by decide))
  have heq : (((List.replicate 10 RowPhase.pending).set 0 RowPhase.holding).set 1
      RowPhase.holding).set 2 RowPhase.holding
      = RowPhase.holding :: RowPhase.holding :: RowPhase.holding ::
          List.replicate 7 RowPhase.pending := by decide
  exact heq ▸ batch_semaphore_bound 10 _ h3

/-! ### C8: credit-exhaustion fallback in the model gateway -/

/-- C8: when the primary (Claude) call raises an error whose message contains
`"insufficient credit balance"` and an OpenAI client is configured,
`generate_content` invokes the fallback with the same prompt, returns the
fallback's (nonempty) text, and leaves `credit_exhausted` observably true;
moreover the flag is reset at the start of every call — a call whose primary
backend succeeds ends with the flag false whatever its previous value. -/
theorem gateway_credit_fallback (g : Gateway) (m fallbackText : Chars) (sc : Option Nat)
    (hclaude : g.hasClaudeClient = true) (hopenai : g.hasOpenaiClient = true)
    (hmsg : substrB (chars "insufficient credit balance") m = true)
    (hfb : fallbackText ≠ []) :
    generate_content g (.raised m sc) (.ok fallbackText)
        = ({ g with credit_exhausted := true }, .ok fallbackText)
      ∧ (generate_content g (.raised m sc) (.ok fallbackText)).1.credit_exhausted = true
      ∧ ∀ (g' : Gateway) (content : Chars) (oo : Except Chars Chars),
          g'.hasClaudeClient = true → content ≠ [] →
          (generate_content g' (.ok content) oo).1.credit_exhausted = false := by
  have hlow : substrB (chars "insufficient") (lowerStr m) = true := by
    have h1 : substrB ((chars "insufficient credit balance").map Char.toLower)
        (m.map Char.toLower) = true := substrB_map Char.toLower hmsg
    have h2 : (chars "insufficient credit balance").map Char.toLower
        = chars "insufficient credit balance" := by decide
    rw [h2] at h1
    exact substrB_trans (by decide) h1
  have hany : credit_error_keywords.any (fun k => substrB k (lowerStr m)) = true :=
    List.any_eq_true.mpr ⟨chars "insufficient", by decide, hlow⟩
  have hcredit : isCreditError m sc = true := by
    unfold isCreditError
    rw [hany]
    rfl
  refine ⟨?_, ?_, ?_⟩
  · simp [generate_content, claudeFailure, hclaude, hopenai, hcredit, useOpenai, hfb]
  · simp [generate_content, claudeFailure, hclaude, hopenai, hcredit, useOpenai, hfb]
  · intro g' content oo hc' hcon
    simp [generate_content, hc', hcon]

/-- Witness for C8: a concrete gateway whose flag starts true, a message
containing the credit phrase, and a nonempty fallback text. -/
theorem gateway_credit_fallback_witness :
    generate_content ⟨true, true, true⟩
        (.raised (chars "Error code 400: insufficient credit balance is too low") none)
        (.ok (chars "fallback answer"))
      = (⟨true, true, true⟩, .ok (chars "fallback answer")) :=
  (gateway_credit_fallback ⟨true, true, true⟩
    (chars "Error code 400: insufficient credit balance is too low")
    (chars "fallback answer") none rfl rfl (by decide) (by decide)).1

/-! ### C7: per-row failure isolation of the question step -/

/-- C7: in a five-row batch where every step succeeds except that row 3's
question-generation step raises `e`, the aggregated result contains row 3's
resume and cover-letter `GeneratedFile` entries, and the error list is
exactly one `RowError` carrying row 3's number and title (with the question
step's message prefix); the failure removes none of row 3's earlier files and
touches no sibling row's results. -/
theorem batch_question_failure_isolated (builtDir batchDir : Chars)
    (r1 r2 r3 r4 r5 : RowSpec) (d3 : Doc) (p3 e3 : Chars)
    (h3t : r3.tailorOutcome = .ok d3) (h3r : r3.resumeRenderOutcome = .ok ())
    (h3c : r3.coverOutcome = .ok (some p3)) (h3q : r3.questions ≠ [])
    (h3e : r3.questionOutcome = .error e3) (h3n : r3.rowNumber = 3)
    (h1 : (processOneBatchJob builtDir batchDir r1).2 = [])
    (h2 : (processOneBatchJob builtDir batchDir r2).2 = [])
    (h4 : (processOneBatchJob builtDir batchDir r4).2 = [])
    (h5 : (processOneBatchJob builtDir batchDir r5).2 = []) :
    (runBatch builtDir batchDir [r1, r2, r3, r4, r5]).2
        = [⟨3, r3.jobTitle, chars "Failed to generate question PDF: " ++ e3⟩]
      ∧ resumeEntry r3.jobTitle r3.safeTitle builtDir batchDir d3
          ∈ (runBatch builtDir batchDir [r1, r2, r3, r4, r5]).1
      ∧ coverLetterEntry r3.jobTitle r3.safeTitle builtDir batchDir
          ∈ (runBatch builtDir batchDir [r1, r2, r3, r4, r5]).1 := by
  have h3 : processOneBatchJob builtDir batchDir r3
      = ([resumeEntry r3.jobTitle r3.safeTitle builtDir batchDir d3,
          coverLetterEntry r3.jobTitle r3.safeTitle builtDir batchDir],
         [⟨3, r3.jobTitle, chars "Failed to generate question PDF: " ++ e3⟩]) := by
    unfold processOneBatchJob
    rw [h3t, h3r, h3c, h3e, h3n]
    simp [h3q]
  have hrun : runBatch builtDir batchDir [r1, r2, r3, r4, r5]
      = ((processOneBatchJob builtDir batchDir r1).1
          ++ (processOneBatchJob builtDir batchDir r2).1
          ++ (processOneBatchJob builtDir batchDir r3).1
          ++ (processOneBatchJob builtDir batchDir r4).1
          ++ (processOneBatchJob builtDir batchDir r5).1,
         (processOneBatchJob builtDir batchDir r1).2
          ++ (processOneBatchJob builtDir batchDir r2).2
          ++ (processOneBatchJob builtDir batchDir r3).2
          ++ (processOneBatchJob builtDir batchDir r4).2
          ++ (processOneBatchJob builtDir batchDir r5).2) := by
    simp [runBatch]
  refine ⟨?_, ?_, ?_⟩
  · rw [hrun]
    simp [h1, h2, h4, h5, h3]
  · rw [hrun, h3]
    simp
  · rw [hrun, h3]
    simp

/-- A fully successful concrete row used by the C7 witness. -/
def okRowSpec (n : Nat) (title : Chars) : RowSpec :=
  { rowNumber := n, jobTitle := title, safeTitle := title, questions := [],
    tailorOutcome := .ok ⟨chars "Ann", [], chars "City, ST, Country", [], [], .flat [], ⟨[], [], [], []⟩⟩,
    resumeRenderOutcome := .ok (), coverOutcome := .ok (some (chars "cl.pdf")),
    questionOutcome := .ok [] }

/-- The failing-question row used by the C7 witness. -/
def badQuestionRowSpec : RowSpec :=
  { rowNumber := 3, jobTitle := chars "Data Engineer", safeTitle := chars "Data_Engineer",
    questions := [chars "Why us?"],
    tailorOutcome := .ok ⟨chars "Bob", [], chars "City, ST, Country", [], [], .flat [], ⟨[], [], [], []⟩⟩,
    resumeRenderOutcome := .ok (), coverOutcome := .ok (some (chars "cl.pdf")),
    questionOutcome := .error (chars "boom") }

/-- Witness for C7 at a concrete five-row batch. -/
theorem batch_question_failure_isolated_witness :
    (runBatch (chars "built_resume") (chars "batch")
        [okRowSpec 1 (chars "A"), okRowSpec 2 (chars "B"), badQuestionRowSpec,
         okRowSpec 4 (chars "D"), okRowSpec 5 (chars "E")]).2
      = [⟨3, chars "Data Engineer", chars "Failed to generate question PDF: " ++ chars "boom"⟩] :=
  (batch_question_failure_isolated (chars "built_resume") (chars "batch")
    (okRowSpec 1 (chars "A")) (okRowSpec 2 (chars "B")) badQuestionRowSpec
    (okRowSpec 4 (chars "D")) (okRowSpec 5 (chars "E"))
    ⟨chars "Bob", [], chars "City, ST, Country", [], [], .flat [], ⟨[], [], [], []⟩⟩
    (chars "cl.pdf") (chars "boom")
    rfl rfl rfl (by decide) rfl rfl (by decide) (by decide) (by decide) (by decide)).1

/-! ### C6: the pipeline's one hard failure mode -/

/-- C6: when the main tailoring response (after the optional fence stripping
of `extractJsonPayload`) fails to parse as JSON, `tailor_resume` writes the
raw response text verbatim to the timestamped diagnostic file and fails with
a message naming that file's path; and the job-title, skills-for-ATS and
education-requirement sub-calls are total, degrading to their documented
defaults both when their generation call raises and when their own payload
fails to parse. -/
theorem tailoring_parse_failure (parse : Chars → Option Doc) (headline domain : Chars)
    (hard_skills : List Chars) (r ts : Chars)
    (hfail : parse (extractJsonPayload r) = none) :
    tailorResponsePhase parse headline domain hard_skills r ts
        = .failed (raw_file_path ts) r
            (chars "Failed to parse tailored resume as JSON. Raw output saved to "
              ++ raw_file_path ts)
      ∧ (∀ (sp : Chars → Option SkillsAnalysis) (e : Chars),
          extract_skills_for_ats sp (.error e) = defaultSkillsAnalysis)
      ∧ (∀ (ep : Chars → Option EducationRequirement) (e : Chars),
          extract_education_requirements ep (.error e) = defaultEducationRequirement)
      ∧ (∀ e : Chars, extract_job_title (.error e) = [])
      ∧ (∀ (sp : Chars → Option SkillsAnalysis) (t : Chars),
          sp (extractJsonPayloadSub (stripStr t)) = none →
          extract_skills_for_ats sp (.ok t) = defaultSkillsAnalysis)
      ∧ (∀ (ep : Chars → Option EducationRequirement) (t : Chars),
          ep (extractJsonPayloadSub (stripStr t)) = none →
          extract_education_requirements ep (.ok t) = defaultEducationRequirement) := by
  refine ⟨?_, fun sp e => rfl, fun ep e => rfl, fun e => rfl, ?_, ?_⟩
  · simp [tailorResponsePhase, hfail]
  · intro sp t h
    simp [extract_skills_for_ats, h]
  · intro ep t h
    simp [extract_education_requirements, h]

/-- Witness for C6: a parser rejecting everything, on a concrete response. -/
theorem tailoring_parse_failure_witness :
    tailorResponsePhase (fun _ => none) [] [] [] (chars "oops, not JSON")
        (chars "20250101_120000")
      = .failed (raw_file_path (chars "20250101_120000")) (chars "oops, not JSON")
          (chars "Failed to parse tailored resume as JSON. Raw output saved to "
            ++ raw_file_path (chars "20250101_120000")) :=
  (tailoring_parse_failure (fun _ => none) [] [] [] (chars "oops, not JSON")
    (chars "20250101_120000") rfl).1

example :
    extractJsonPayload (chars "Here is the result:\n```json\n\x7b\"name\":\"A\"\x7d\n```\n")
      = chars "\x7b\"name\":\"A\"\x7d" := by decide
example : extractJsonPayload (chars "  \x7b\"name\":\"A\"\x7d ") = chars "  \x7b\"name\":\"A\"\x7d " := by decide

/-! ### C3: career-progression enforcement on empty and single-entry resumes -/

/-- C3 (amended): `enforce_career_progression` returns an empty-experience
resume unchanged; a single-entry resume is returned with at most the sole
entry's title rewritten — every other field of the document and of the entry
is preserved.  (The single entry is subject to the most-recent-entry senior
rule, so its title can change.) -/
theorem enforce_small (d : Doc) (jd : Chars) :
    (d.experience = [] → enforce_career_progression d jd = d)
      ∧ ∀ e : Experience, d.experience = [e] →
          ∃ t, enforce_career_progression d jd
            = { d with experience := [{ e with title := t }] } := by
  obtain ⟨nm, hl, loc, sm, exps, sk, ed⟩ := d
  constructor
  · intro h
    simp only at h
    subst h
    rfl
  · intro e h
    simp only at h
    subst h
    exact ⟨firstEntryTitle (effectiveDomain e.title jd)
      (baseTitleOf (effectiveDomain e.title jd)) e.title, rfl⟩

/-- An empty-experience document for the C3 witness. -/
def c3emptyDoc : Doc :=
  ⟨chars "A", [], chars "Bandung, West Java, Indonesia", chars "hi", [], .flat [],
   ⟨[], [], [], []⟩⟩

/-- A single-entry document whose sole title carries no seniority marker. -/
def c3singleDoc : Doc :=
  ⟨chars "A", [], chars "Bandung, West Java, Indonesia", chars "hi",
   [⟨chars "Python Developer", chars "Acme", chars "2019 - 2021", chars "s",
     [chars "Did things."], [chars "Python"]⟩], .flat [], ⟨[], [], [], []⟩⟩

/-- Witness for C3 at concrete empty and singleton documents. -/
theorem enforce_small_witness :
    enforce_career_progression c3emptyDoc [] = c3emptyDoc
      ∧ ∃ t, enforce_career_progression c3singleDoc []
          = { c3singleDoc with experience :=
              [⟨t, chars "Acme", chars "2019 - 2021", chars "s",
                [chars "Did things."], [chars "Python"]⟩] } :=
  ⟨(enforce_small c3emptyDoc []).1 rfl,
   (enforce_small c3singleDoc []).2
     ⟨chars "Python Developer", chars "Acme", chars "2019 - 2021", chars "s",
      [chars "Did things."], [chars "Python"]⟩ rfl⟩

/-- C3 counterexample: the claim "a resume with exactly one experience entry
is returned equal to its input" is false — the sole entry's title of
`c3singleDoc` is rewritten to `"Senior Python Developer"` by the
first-entry rule, which is not guarded by any `num ≥ 2` check. -/
theorem enforce_single_changes :
    enforce_career_progression c3singleDoc [] ≠ c3singleDoc
      ∧ (enforce_career_progression c3singleDoc []).experience.map Experience.title
          = [chars "Senior Python Developer"] := by decide

/-! ### C1: the career-progression ladder -/

theorem prefB_append_sep {q a b : Chars} {sep : Char} (hsep : sep ∉ q)
    (h : prefB q (a ++ sep :: b) = true) : prefB q a = true := by
  induction a generalizing q with
  | nil =>
    cases q with
    | nil => rfl
    | cons c cs =>
      simp only [List.nil_append, prefB, Bool.and_eq_true, decide_eq_true_eq] at h
      exact absurd (h.1 ▸ List.mem_cons_self c cs) hsep
  | cons x xs ih =>
    cases q with
    | nil => rfl
    | cons c cs =>
      simp only [List.cons_append, prefB, Bool.and_eq_true, decide_eq_true_eq] at h ⊢
      exact ⟨h.1, ih (fun hm => hsep (List.mem_cons_of_mem c hm)) h.2⟩

theorem substrB_append_sep {p a b : Chars} {sep : Char} (hsep : sep ∉ p)
    (h : substrB p (a ++ sep :: b) = true) : substrB p a = true ∨ substrB p b = true := by
  induction a with
  | nil =>
    simp only [List.nil_append, substrB, Bool.or_eq_true] at h
    rcases h with h | h
    · cases p with
      | nil => exact Or.inl rfl
      | cons c cs =>
        simp only [prefB, Bool.and_eq_true, decide_eq_true_eq] at h
        exact absurd (h.1 ▸ List.mem_cons_self c cs) hsep
    · exact Or.inr h
  | cons x xs ih =>
    simp only [List.cons_append, substrB, Bool.or_eq_true] at h
    rcases h with h | h
    · exact Or.inl (by
        have := prefB_append_sep (a := x :: xs) hsep h
        simp [substrB, this])
    · rcases ih h with h' | h'
      · exact Or.inl (by simp [substrB, h'])
      · exact Or.inr h'

theorem substr_sep_parts {w a b : Chars} (hw : ' ' ∉ w)
    (ha : substrB w a = false) (hb : substrB w b = false) :
    substrB w (a ++ ' ' :: b) = false := by
  by_contra hcon
  rw [Bool.not_eq_false] at hcon
  rcases substrB_append_sep hw hcon with h | h
  · rw [ha] at h; cases h
  · rw [hb] at h; cases h

theorem hasMarkerB_eq_false_iff (t : Chars) :
    hasMarkerB t = false ↔ ∀ w ∈ seniorMarkers, substrB (lowerStr w) (lowerStr t) = false := by
  simp [hasMarkerB, List.any_eq_false]

theorem markers_no_space : ∀ w ∈ seniorMarkers, ' ' ∉ lowerStr w := by decide

theorem markers_not_in_junior : ∀ w ∈ seniorMarkers,
    substrB (lowerStr w) (chars "junior") = false := by decide

theorem markers_not_in_developer : ∀ w ∈ seniorMarkers,
    substrB (lowerStr w) (chars "developer") = false := by decide

theorem lowerStr_append (a b : Chars) : lowerStr (a ++ b) = lowerStr a ++ lowerStr b := by
  simp [lowerStr]

/-- Prepending `"Junior "` to a marker-free base keeps it marker-free
(`Junior` contains no seniority marker and the markers contain no space). -/
theorem hasMarkerB_junior_base {base : Chars} (h : hasMarkerB base = false) :
    hasMarkerB (chars "Junior " ++ base) = false := by
  rw [hasMarkerB_eq_false_iff] at h ⊢
  intro w hw
  have hdist : lowerStr (chars "Junior " ++ base) = chars "junior" ++ ' ' :: lowerStr base := by
    rw [lowerStr_append]
    rfl
  rw [hdist]
  exact substr_sep_parts (markers_no_space w hw) (markers_not_in_junior w hw) (h w hw)

/-- The base title computed from a marker-free domain is marker-free. -/
theorem hasMarkerB_baseTitleOf {domain : Chars} (h : hasMarkerB domain = false) :
    hasMarkerB (baseTitleOf domain) = false := by
  unfold baseTitleOf
  split
  · exact h
  · rw [hasMarkerB_eq_false_iff] at h ⊢
    intro w hw
    have hdist : lowerStr (domain ++ chars " Developer")
        = lowerStr domain ++ ' ' :: chars "developer" := by
      rw [lowerStr_append]
      rfl
    rw [hdist]
    exact substr_sep_parts (markers_no_space w hw) (h w hw) (markers_not_in_developer w hw)

/-- A title of the form `p ++ " " ++ base` with `p` a seniority marker
contains a marker. -/
theorem hasMarkerB_prefix_self {p : Chars} (base : Chars) (hp : p ∈ seniorMarkers) :
    hasMarkerB (p ++ ' ' :: base) = true := by
  rw [hasMarkerB]
  apply List.any_eq_true.mpr
  refine ⟨p, hp, ?_⟩
  apply prefB_substrB
  rw [prefB_iff]
  refine ⟨' ' :: lowerStr base, ?_⟩
  rw [lowerStr_append]
  rfl

/-- The first-entry rule always yields a title containing a marker. -/
theorem hasMarkerB_firstEntryTitle (domain base t0 : Chars) :
    hasMarkerB (firstEntryTitle domain base t0) = true := by
  unfold firstEntryTitle
  by_cases h0 : hasMarkerB t0 = true
  · rw [if_neg (fun hc => hc h0)]
    by_cases hdom : substrB (lowerStr domain) (lowerStr t0) = true
    · rw [if_neg (fun hc => hc hdom)]
      exact h0
    · rw [if_pos hdom]
      rcases hq : seniorMarkers.find? (fun p => substrB (lowerStr p) (lowerStr t0)) with _ | q
      · simp only [hq]
        exact h0
      · simp only [hq]
        exact hasMarkerB_prefix_self base (List.mem_of_find?_eq_some hq)
  · rw [if_pos h0]
    show hasMarkerB (chars "Senior" ++ ' ' :: base) = true
    exact hasMarkerB_prefix_self base (by decide)

/-- The last-entry rule yields a marker-free title whenever the base title is
marker-free (each of its three branches produces `Junior <base>`, `base`, or
a cleaned title already checked to contain no marker). -/
theorem hasMarkerB_lastEntryTitle {base : Chars} (domain t : Chars) (num : Nat)
    (hbase : hasMarkerB base = false) :
    hasMarkerB (lastEntryTitle domain base t num) = false := by
  unfold lastEntryTitle
  by_cases h1 : hasMarkerB (removeFirstQualifier lastLevelQualifiers t) = true
  · rw [if_pos h1]
    split
    · exact hasMarkerB_junior_base hbase
    · exact hbase
  · rw [if_neg h1]
    split
    · split
      · exact hasMarkerB_junior_base hbase
      · exact hbase
    · exact Bool.eq_false_iff.mpr (fun hc => h1 hc)

/-- The interior rule yields a marker-free title when the base title and the
cleaned original title are marker-free. -/
theorem hasMarkerB_middleEntryTitle {base : Chars} (domain t : Chars)
    (hbase : hasMarkerB base = false)
    (hclean : hasMarkerB (removeFirstQualifier allLevelQualifiers t) = false) :
    hasMarkerB (middleEntryTitle domain base t) = false := by
  show hasMarkerB
      (if ¬ substrB (lowerStr domain)
            (lowerStr (removeFirstQualifier allLevelQualifiers t)) = true
        then base else removeFirstQualifier allLevelQualifiers t) = false
  by_cases hq : substrB (lowerStr domain)
      (lowerStr (removeFirstQualifier allLevelQualifiers t)) = true
  · rw [if_neg (fun hc => hc hq)]
    exact hclean
  · rw [if_pos hq]
    exact hbase

theorem mapWI_getElem? (f : Nat → α → β) (k : Nat) (l : List α) (i : Nat) :
    (mapWI f k l)[i]? = (l[i]?).map (f (k + i)) := by
  induction l generalizing k i with
  | nil => simp [mapWI]
  | cons a as ih =>
    cases i with
    | zero => simp [mapWI]
    | succ j =>
      simp only [mapWI, List.getElem?_cons_succ]
      rw [ih (k + 1) j]
      have : k + 1 + j = k + (j + 1) := by omega
      rw [this]

/-- The title of the first experience entry (used to derive the domain when
`job_domain` is empty). -/
def firstExpTitle (d : Doc) : Chars :=
  match d.experience with
  | [] => []
  | e :: _ => e.title

/-- C1 (amended): for a resume with `N ≥ 2` experience entries, after
`enforce_career_progression`: the first entry's title always contains a
seniority marker from {Senior, Lead, Principal, Staff} (whole-title,
case-insensitive substring check); and provided the effective domain (the
given `job_domain`, or the one derived from entry 0's title when it is
empty) contains no seniority marker, the last entry's title contains none;
and provided additionally that each interior entry's title still contains no
marker after the code's first-matching-qualifier removal, no interior
entry's title contains a marker.  (Without these provisos the last and
interior parts of the original claim fail — see the counterexample.) -/
theorem career_ladder_amended (d : Doc) (jd : Chars)
    (hn : 2 ≤ d.experience.length)
    (hdom : hasMarkerB (effectiveDomain (firstExpTitle d) jd) = false)
    (hint : ∀ i e, 1 ≤ i → i + 1 < d.experience.length → d.experience[i]? = some e →
      hasMarkerB (removeFirstQualifier allLevelQualifiers e.title) = false) :
    (∀ e, (enforce_career_progression d jd).experience[0]? = some e →
        hasMarkerB e.title = true)
      ∧ (∀ e, (enforce_career_progression d jd).experience[d.experience.length - 1]?
            = some e → hasMarkerB e.title = false)
      ∧ (∀ i e, 1 ≤ i → i + 1 < d.experience.length →
          (enforce_career_progression d jd).experience[i]? = some e →
          hasMarkerB e.title = false) := by
  obtain ⟨nm, hl, loc, sm, exps, sk, ed⟩ := d
  cases exps with
  | nil => simp at hn
  | cons e0 rest =>
    simp only [firstExpTitle] at hdom
    simp only [List.length_cons] at hn hint ⊢
    have hbase : hasMarkerB (baseTitleOf (effectiveDomain e0.title jd)) = false :=
      hasMarkerB_baseTitleOf hdom
    have hexp : (enforce_career_progression ⟨nm, hl, loc, sm, e0 :: rest, sk, ed⟩ jd).experience
        = mapWI (enforcedEntry (effectiveDomain e0.title jd)
            (baseTitleOf (effectiveDomain e0.title jd)) (e0 :: rest).length) 0 (e0 :: rest) :=
      rfl
    refine ⟨?_, ?_, ?_⟩
    · intro e he
      rw [hexp, mapWI_getElem?] at he
      simp only [List.getElem?_cons_zero, Option.map_some'] at he
      obtain rfl := Option.some.inj he
      exact hasMarkerB_firstEntryTitle _ _ _
    · intro e he
      rw [hexp, mapWI_getElem?] at he
      rcases Option.map_eq_some'.mp he with ⟨a, _, rfl⟩
      show hasMarkerB (enforcedEntry _ _ (rest.length + 1) (0 + (rest.length + 1 - 1)) a).title
        = false
      unfold enforcedEntry
      rw [if_neg (by omega), if_pos (by omega)]
      exact hasMarkerB_lastEntryTitle _ _ _ hbase
    · intro i e h1 h2 he
      rw [hexp, mapWI_getElem?] at he
      rcases Option.map_eq_some'.mp he with ⟨a, ha, rfl⟩
      show hasMarkerB (enforcedEntry _ _ (rest.length + 1) (0 + i) a).title = false
      unfold enforcedEntry
      rw [if_neg (by omega), if_neg (by omega)]
      exact hasMarkerB_middleEntryTitle _ _ hbase (hint i a h1 (by omega) (by simpa using ha))

/-- The two-entry document refuting the original C1 claim: the first title is
`"senior dev"` (lowercase, so the case-sensitive qualifier stripping of the
domain derivation removes nothing and the derived domain itself contains
`senior`), the second is `"X"`. -/
def c1doc : Doc :=
  ⟨chars "A", [], chars "Bandung, West Java, Indonesia", [],
   [⟨chars "senior dev", chars "Acme", [], [], [], []⟩,
    ⟨chars "X", chars "Beta", [], [], [], []⟩],
   .flat [], ⟨[], [], [], []⟩⟩

/-- C1 counterexample: on `c1doc` (N = 2, empty job domain — the pipeline
passes an empty domain whenever job-title extraction fails), the last
entry's title after enforcement is `"senior dev Developer"`, which contains
the marker `Senior` case-insensitively; so the claim's "the last entry's
title contains none of {Senior, Lead, Principal, Staff}" is false. -/
theorem career_ladder_counterexample :
    2 ≤ c1doc.experience.length
      ∧ ((enforce_career_progression c1doc []).experience.map
          (fun e => hasMarkerB e.title))[c1doc.experience.length - 1]? = some true
      ∧ (enforce_career_progression c1doc []).experience.map Experience.title
          = [chars "senior dev", chars "senior dev Developer"] := by decide

/-- A three-entry compliant document for the C1 witness. -/
def c1okDoc : Doc :=
  ⟨chars "A", [], chars "Bandung, West Java, Indonesia", [],
   [⟨chars "Lead Python Developer", chars "Acme", [], [], [], []⟩,
    ⟨chars "Python Developer", chars "Beta", [], [], [], []⟩,
    ⟨chars "Web Developer", chars "Gamma", [], [], [], []⟩],
   .flat [], ⟨[], [], [], []⟩⟩

/-- Witness for the amended C1 at `c1okDoc` with job domain `"Python"`. -/
theorem career_ladder_amended_witness :
    (∀ e, (enforce_career_progression c1okDoc (chars "Python")).experience[0]? = some e →
        hasMarkerB e.title = true)
      ∧ (∀ e, (enforce_career_progression c1okDoc (chars "Python")).experience[
            c1okDoc.experience.length - 1]? = some e → hasMarkerB e.title = false)
      ∧ (∀ i e, 1 ≤ i → i + 1 < c1okDoc.experience.length →
          (enforce_career_progression c1okDoc (chars "Python")).experience[i]? = some e →
          hasMarkerB e.title = false) :=
  career_ladder_amended c1okDoc (chars "Python") (by decide) (by decide)
    (by
      intro i e h1 h2 he
      have hi : i = 1 := by
        have hlen : c1okDoc.experience.length = 3 := rfl
        rw [hlen] at h2
        omega
      subst hi
      simp only [c1okDoc, List.getElem?_cons_succ, List.getElem?_cons_zero] at he
      obtain rfl := Option.some.inj he
      decide)

/-! ### C10: the intra-string duplicate-word pass -/

theorem fixDupGo_spec (ws : List Chars) (seen : List Chars) (j : Nat) (w : Chars)
    (hw : ws[j]? = some w) :
    ((cleanWord w ≠ [] ∧ (cleanWord w ∈ seen
        ∨ ∃ i u, i < j ∧ ws[i]? = some u ∧ cleanWord u = cleanWord w)) →
      (fixDupGo seen ws)[j]? = some (dupReplacementFor w))
    ∧ ((cleanWord w = [] ∨ (cleanWord w ∉ seen
        ∧ ∀ i u, i < j → ws[i]? = some u → cleanWord u ≠ cleanWord w)) →
      (fixDupGo seen ws)[j]? = some w) := by
  induction ws generalizing seen j with
  | nil => simp at hw
  | cons x rest ih =>
    cases j with
    | zero =>
      have hxw : x = w := by simpa using hw
      subst hxw
      constructor
      · rintro ⟨hne, h | ⟨i, u, hi, _, _⟩⟩
        · have heq : fixDupGo seen (x :: rest)
              = dupReplacementFor x :: fixDupGo seen rest := by
            simp only [fixDupGo, if_pos (And.intro hne h)]
          rw [heq]
          simp
        · omega
      · rintro (hemp | ⟨hnotin, _⟩)
        · have heq : fixDupGo seen (x :: rest)
              = x :: fixDupGo (cleanWord x :: seen) rest := by
            simp only [fixDupGo]
            rw [if_neg (fun hc : cleanWord x ≠ [] ∧ cleanWord x ∈ seen => hc.1 hemp)]
          rw [heq]
          simp
        · have heq : fixDupGo seen (x :: rest)
              = x :: fixDupGo (cleanWord x :: seen) rest := by
            simp only [fixDupGo]
            rw [if_neg (fun hc : cleanWord x ≠ [] ∧ cleanWord x ∈ seen => hnotin hc.2)]
          rw [heq]
          simp
    | succ j' =>
      have hw' : rest[j']? = some w := by simpa using hw
      by_cases hx : cleanWord x ≠ [] ∧ cleanWord x ∈ seen
      · have heq : fixDupGo seen (x :: rest)
            = dupReplacementFor x :: fixDupGo seen rest := by
          simp only [fixDupGo, if_pos hx]
        rw [heq]
        simp only [List.getElem?_cons_succ]
        have IH := ih seen j' hw'
        constructor
        · rintro ⟨hne, hcond⟩
          apply IH.1
          refine ⟨hne, ?_⟩
          rcases hcond with hmem | ⟨i, u, hi, hu, hcu⟩
          · exact Or.inl hmem
          · cases i with
            | zero =>
              have hux : x = u := by simpa using hu
              subst hux
              exact Or.inl (hcu ▸ hx.2)
            | succ i' =>
              exact Or.inr ⟨i', u, by omega, by simpa using hu, hcu⟩
        · rintro (hemp | ⟨hnotin, hfresh⟩)
          · exact IH.2 (Or.inl hemp)
          · refine IH.2 (Or.inr ⟨hnotin, ?_⟩)
            intro i u hi hu
            exact hfresh (i + 1) u (by omega) (by simpa using hu)
      · have heq : fixDupGo seen (x :: rest)
            = x :: fixDupGo (cleanWord x :: seen) rest := by
          simp only [fixDupGo, if_neg hx]
        rw [heq]
        simp only [List.getElem?_cons_succ]
        have IH := ih (cleanWord x :: seen) j' hw'
        constructor
        · rintro ⟨hne, hcond⟩
          apply IH.1
          refine ⟨hne, ?_⟩
          rcases hcond with hmem | ⟨i, u, hi, hu, hcu⟩
          · exact Or.inl (List.mem_cons_of_mem _ hmem)
          · cases i with
            | zero =>
              have hux : x = u := by simpa using hu
              subst hux
              exact Or.inl (hcu ▸ List.mem_cons_self _ _)
            | succ i' =>
              exact Or.inr ⟨i', u, by omega, by simpa using hu, hcu⟩
        · rintro (hemp | ⟨hnotin, hfresh⟩)
          · exact IH.2 (Or.inl hemp)
          · refine IH.2 (Or.inr ⟨?_, ?_⟩)
            · intro hmem
              rcases List.mem_cons.mp hmem with heq' | hmem'
              · exact hfresh 0 x (by omega) (by simp) heq'.symm
              · exact hnotin hmem'
            · intro i u hi hu
              exact hfresh (i + 1) u (by omega) (by simpa using hu)

/-- C10: in the intra-string duplicate-word pass of `fix_repetitive_verbs`
(which applies `fixDupWords` — `fixDupGo` over `splitWs s` — to every
experience highlight and experience summary), a word at position `j` whose
punctuation-stripped lowercased form is nonempty and already occurred among
the earlier words of the same string is replaced by `dupReplacementFor w`
(the duplicates table's first alternative, or the fallback `"engineered"`
for any other repeated word, capitalized when the original word starts with
an uppercase letter) — regardless of whether it is a verb; every other word
is kept unchanged. -/
theorem intra_string_duplicate_replacement (s : Chars) (j : Nat) (w : Chars)
    (hw : (splitWs s)[j]? = some w) :
    ((cleanWord w ≠ [] ∧ ∃ i u, i < j ∧ (splitWs s)[i]? = some u
        ∧ cleanWord u = cleanWord w) →
      (fixDupGo [] (splitWs s))[j]? = some (dupReplacementFor w))
    ∧ ((cleanWord w = [] ∨ ∀ i u, i < j → (splitWs s)[i]? = some u →
        cleanWord u ≠ cleanWord w) →
      (fixDupGo [] (splitWs s))[j]? = some w) := by
  have h := fixDupGo_spec (splitWs s) [] j w hw
  constructor
  · rintro ⟨hne, hex⟩
    exact h.1 ⟨hne, Or.inr hex⟩
  · rintro (hemp | hfresh)
    · exact h.2 (Or.inl hemp)
    · exact h.2 (Or.inr ⟨by simp, hfresh⟩)

/-- Witness for C10: in `"Developed the thing and developed again"`, the
second `developed` (a table word, position 4) is replaced by the table's
first alternative `engineered`; the non-verb repeated word `and` at position
6 of `"x and y and z"` gets the fallback. -/
theorem intra_string_duplicate_replacement_witness :
    (fixDupGo [] (splitWs (chars "Developed the thing and developed again")))[4]?
      = some (dupReplacementFor (chars "developed"))
      ∧ (fixDupGo [] (splitWs (chars "Odd, and even and odd")))[3]?
          = some (dupReplacementFor (chars "and"))
      ∧ dupReplacementFor (chars "developed") = chars "engineered"
      ∧ dupReplacementFor (chars "and") = chars "engineered" :=
  ⟨(intra_string_duplicate_replacement (chars "Developed the thing and developed again")
      4 (chars "developed") (by decide)).1
      ⟨by decide, 0, chars "Developed", by omega, by decide, by decide⟩,
   (intra_string_duplicate_replacement (chars "Odd, and even and odd")
      3 (chars "and") (by decide)).1
      ⟨by decide, 1, chars "and", by omega, by decide, by decide⟩,
   by decide, by decide⟩

/-! ### C5: markdown-bold normalization and remaining `**` -/

/-- Fuelled checker for well-formed bold markup: the string is a sequence of
asterisk-free segments and spans `**t**` whose bodies `t` are nonempty,
newline-free and asterisk-free.  Fuel is consumed once per character or
span; `wellBoldB` supplies enough fuel. -/
def wellBoldAux : Nat → Chars → Bool
  | _, [] => true
  | 0, _ :: _ => false
  | fuel + 1, '*' :: '*' :: rest =>
    let t := rest.takeWhile (fun c => !(c = '*') && !(c = '\n'))
    if t = [] then false
    else
      match rest.dropWhile (fun c => !(c = '*') && !(c = '\n')) with
      | '*' :: '*' :: rest2 => wellBoldAux fuel rest2
      | _ => false
  | fuel + 1, c :: rest => if c = '*' then false else wellBoldAux fuel rest

/-- Is the string's `**` markup well formed? -/
def wellBoldB (s : Chars) : Bool := wellBoldAux (s.length + 1) s

mutual

/-- Is every string value's bold markup well formed? -/
def jvalWellBold : JVal → Bool
  | .s v => wellBoldB v
  | .arr items => jvalListWellBold items
  | .obj fields => jvalFieldsWellBold fields
  | .other => true

/-- List case of `jvalWellBold`. -/
def jvalListWellBold : List JVal → Bool
  | [] => true
  | v :: rest => jvalWellBold v && jvalListWellBold rest

/-- Dict case of `jvalWellBold`. -/
def jvalFieldsWellBold : List (Chars × JVal) → Bool
  | [] => true
  | (_, v) :: rest => jvalWellBold v && jvalFieldsWellBold rest

end

theorem hasDoubleStar_cons_nostar {c : Char} (hc : c ≠ '*') (l : Chars) :
    hasDoubleStar (c :: l) = hasDoubleStar l := by
  cases l with
  | nil => simp [hasDoubleStar, hc]
  | cons x xs =>
    by_cases hx : x = '*'
    · subst hx
      by_cases hcc : c = '*'
      · exact absurd hcc hc
      · simp [hasDoubleStar, hc]
    · simp [hasDoubleStar, hc, hx]

theorem hasDoubleStar_append_nostar {a : Chars} (b : Chars) (ha : ∀ c ∈ a, c ≠ '*') :
    hasDoubleStar (a ++ b) = hasDoubleStar b := by
  induction a with
  | nil => rfl
  | cons c a' ih =>
    rw [List.cons_append,
      hasDoubleStar_cons_nostar (ha c (List.mem_cons_self c a')) (a' ++ b)]
    exact ih (fun x hx => ha x (List.mem_cons_of_mem c hx))

theorem startsStars_cons_nostar {d : Char} (hd : d ≠ '*') (l : Chars) :
    startsStars (d :: l) = false := by
  cases l with
  | nil => simp [startsStars, hd]
  | cons x xs =>
    by_cases hx : x = '*'
    · subst hx; simp [startsStars, hd]
    · simp [startsStars, hd, hx]

theorem scanBody_span {t : Chars} (rest2 : Chars) (hne : t ≠ [])
    (ht : ∀ c ∈ t, c ≠ '*' ∧ c ≠ '\n') :
    scanBody (t ++ '*' :: '*' :: rest2) = some (t, rest2) := by
  induction t with
  | nil => exact absurd rfl hne
  | cons c t' ih =>
    have hc := ht c (List.mem_cons_self c t')
    cases t' with
    | nil =>
      show scanBody (c :: '*' :: '*' :: rest2) = some ([c], rest2)
      rw [scanBody, if_neg hc.2, if_pos (by rfl)]
      rfl
    | cons d t'' =>
      have hd := ht d (List.mem_cons_of_mem c (List.mem_cons_self d t''))
      have hrec := ih (by simp) (fun x hx => ht x (List.mem_cons_of_mem c hx))
      show scanBody (c :: ((d :: t'') ++ '*' :: '*' :: rest2)) = some (c :: d :: t'', rest2)
      rw [scanBody, if_neg hc.2,
        if_neg (by rw [List.cons_append, startsStars_cons_nostar hd.1]; exact Bool.false_ne_true),
        hrec]
      rfl

theorem subBoldAux_skip (pre q : Chars) :
    subBoldAux pre.length (pre ++ q) = subBoldAux 0 q := by
  induction pre with
  | nil => rfl
  | cons c pre' ih =>
    show subBoldAux (pre'.length + 1) (c :: (pre' ++ q)) = subBoldAux 0 q
    rw [show subBoldAux (pre'.length + 1) (c :: (pre' ++ q))
        = subBoldAux pre'.length (pre' ++ q) from rfl]
    exact ih

theorem subBoldAux_cons_nostar {c : Char} (hc : c ≠ '*') (l : Chars) :
    subBoldAux 0 (c :: l) = c :: subBoldAux 0 l := by
  cases l with
  | nil => simp [subBoldAux, hc]
  | cons x xs =>
    by_cases hx : x = '*'
    · subst hx
      by_cases hcc : c = '*'
      · exact absurd hcc hc
      · simp [subBoldAux, hc]
    · simp [subBoldAux, hc, hx]

theorem subBoldAux_span {t : Chars} (rest2 : Chars) (hne : t ≠ [])
    (ht : ∀ c ∈ t, c ≠ '*' ∧ c ≠ '\n') :
    subBoldAux 0 ('*' :: '*' :: (t ++ '*' :: '*' :: rest2))
      = chars "<strong>" ++ t ++ chars "</strong>" ++ subBoldAux 0 rest2 := by
  have h1 : subBoldAux 0 ('*' :: '*' :: (t ++ '*' :: '*' :: rest2))
      = match scanBody (t ++ '*' :: '*' :: rest2) with
        | some (g, _) => chars "<strong>" ++ g ++ chars "</strong>"
            ++ subBoldAux (g.length + 2) (t ++ '*' :: '*' :: rest2)
        | none => '*' :: subBoldAux 0 ('*' :: (t ++ '*' :: '*' :: rest2)) := rfl
  rw [h1, scanBody_span rest2 hne ht]
  show chars "<strong>" ++ t ++ chars "</strong>"
      ++ subBoldAux (t.length + 2) (t ++ '*' :: '*' :: rest2)
    = chars "<strong>" ++ t ++ chars "</strong>" ++ subBoldAux 0 rest2
  have h2 : t ++ '*' :: '*' :: rest2 = (t ++ ['*', '*']) ++ rest2 := by simp
  have h3 : t.length + 2 = (t ++ ['*', '*']).length := by simp
  rw [h2, h3, subBoldAux_skip]

theorem wellBoldAux_noDoubleStar (fuel : Nat) :
    ∀ s : Chars, wellBoldAux fuel s = true → hasDoubleStar (subBoldAux 0 s) = false := by
  induction fuel with
  | zero =>
    intro s h
    cases s with
    | nil => rfl
    | cons c rest => simp [wellBoldAux] at h
  | succ fuel ih =>
    intro s h
    cases s with
    | nil => rfl
    | cons c rest =>
      by_cases hc : c = '*'
      · subst hc
        cases rest with
        | nil => simp [wellBoldAux] at h
        | cons d rest' =>
          by_cases hd : d = '*'
          · subst hd
            have hunfold : wellBoldAux (fuel + 1) ('*' :: '*' :: rest')
                = (if rest'.takeWhile (fun c => !(c = '*') && !(c = '\n')) = [] then false
                   else
                     match rest'.dropWhile (fun c => !(c = '*') && !(c = '\n')) with
                     | '*' :: '*' :: rest2 => wellBoldAux fuel rest2
                     | _ => false) := rfl
            rw [hunfold] at h
            by_cases ht0 : rest'.takeWhile (fun c => !(c = '*') && !(c = '\n')) = []
            · rw [if_pos ht0] at h
              cases h
            · rw [if_neg ht0] at h
              rcases hdw : rest'.dropWhile (fun c => !(c = '*') && !(c = '\n')) with
                _ | ⟨x, _ | ⟨y, rest2⟩⟩
              · rw [hdw] at h; cases h
              · rw [hdw] at h
                by_cases hx : x = '*'
                · subst hx; cases h
                · simp [hx] at h
              · rw [hdw] at h
                by_cases hx : x = '*'
                · by_cases hy : y = '*'
                  · subst hx; subst hy
                    have hrest : rest'
                        = rest'.takeWhile (fun c => !(c = '*') && !(c = '\n'))
                            ++ '*' :: '*' :: rest2 := by
                      conv_lhs => rw [← List.takeWhile_append_dropWhile
                        (p := fun c => !(c = '*') && !(c = '\n')) (l := rest')]
                      rw [hdw]
                    have htmem : ∀ e ∈ rest'.takeWhile (fun c => !(c = '*') && !(c = '\n')),
                        e ≠ '*' ∧ e ≠ '\n' := by
                      intro e he
                      have := List.mem_takeWhile_imp he
                      simpa using this
                    rw [hrest, subBoldAux_span rest2 ht0 htmem]
                    rw [hasDoubleStar_append_nostar (subBoldAux 0 rest2) ?_]
                    · exact ih rest2 h
                    · have hs1 : ∀ x ∈ chars "<strong>", x ≠ '*' := by decide
                      have hs2 : ∀ x ∈ chars "</strong>", x ≠ '*' := by decide
                      intro e he
                      simp only [List.mem_append] at he
                      rcases he with (he | he) | he
                      · exact hs1 e he
                      · exact (htmem e he).1
                      · exact hs2 e he
                  · subst hx; simp [hy] at h
                · simp [hx] at h
          · simp [wellBoldAux, hd] at h
      · have hstep : wellBoldAux (fuel + 1) (c :: rest) = wellBoldAux fuel rest := by
          simp [wellBoldAux, hc]
        rw [hstep] at h
        rw [subBoldAux_cons_nostar hc, hasDoubleStar_cons_nostar hc]
        exact ih rest h

/-- Custom induction principle for the nested `JVal` type. -/
theorem jval_ind {P : JVal → Prop} (hs : ∀ v, P (.s v)) (ho : P .other)
    (ha : ∀ items, (∀ v ∈ items, P v) → P (.arr items))
    (hb : ∀ fields, (∀ p ∈ fields, P p.2) → P (.obj fields)) : ∀ v, P v
  | .s v => hs v
  | .other => ho
  | .arr items => ha items (fun v hv =>
      have : sizeOf v < 1 + sizeOf items := by
        have h1 := List.sizeOf_lt_of_mem hv
        omega
      jval_ind hs ho ha hb v)
  | .obj fields => hb fields (fun p hp =>
      have : sizeOf p.2 < 1 + sizeOf fields := by
        have h1 := List.sizeOf_lt_of_mem hp
        have h2 : sizeOf p.2 < sizeOf p := by
          obtain ⟨k, v⟩ := p
          simp only [Prod.mk.sizeOf_spec]
          omega
        omega
      jval_ind hs ho ha hb p.2)
termination_by v => sizeOf v

/-- C5 (amended): for a document in which every string value's `**`
occurrences appear only as delimiters of well-formed bold spans `**t**` with
`t` nonempty, newline-free and asterisk-free (`jvalWellBold`), after
`convert_markdown_bold_to_html` no string value anywhere in the structure
contains the two-character substring `**`.  (Unpaired or nested `**`
markers can survive the normalization — see the counterexample.) -/
theorem bold_normalization_amended (v : JVal) (h : jvalWellBold v = true) :
    jvalHasDoubleStar (convert_markdown_bold_to_html v) = false := by
  induction v using jval_ind with
  | hs s => exact wellBoldAux_noDoubleStar (s.length + 1) s h
  | ho => rfl
  | ha items ih =>
    rw [show convert_markdown_bold_to_html (.arr items) = .arr (convertBoldList items)
      from rfl]
    rw [show jvalHasDoubleStar (.arr (convertBoldList items))
      = jvalListHasDoubleStar (convertBoldList items) from rfl]
    rw [show jvalWellBold (.arr items) = jvalListWellBold items from rfl] at h
    induction items with
    | nil => rfl
    | cons x rest ihl =>
      have hsplit : (jvalWellBold x && jvalListWellBold rest) = true := h
      have hx : jvalWellBold x = true := (Bool.and_eq_true_iff.mp hsplit).1
      have hrest : jvalListWellBold rest = true := (Bool.and_eq_true_iff.mp hsplit).2
      have h1 : jvalHasDoubleStar (convert_markdown_bold_to_html x) = false :=
        ih x (List.mem_cons_self x rest) hx
      have h2 : jvalListHasDoubleStar (convertBoldList rest) = false :=
        ihl (fun u hu => ih u (List.mem_cons_of_mem x hu)) hrest
      show (jvalHasDoubleStar (convert_markdown_bold_to_html x)
          || jvalListHasDoubleStar (convertBoldList rest)) = false
      rw [h1, h2]
      rfl
  | hb fields ih =>
    rw [show convert_markdown_bold_to_html (.obj fields) = .obj (convertBoldFields fields)
      from rfl]
    rw [show jvalHasDoubleStar (.obj (convertBoldFields fields))
      = jvalFieldsHasDoubleStar (convertBoldFields fields) from rfl]
    rw [show jvalWellBold (.obj fields) = jvalFieldsWellBold fields from rfl] at h
    induction fields with
    | nil => rfl
    | cons x rest ihl =>
      obtain ⟨k, xv⟩ := x
      have hsplit : (jvalWellBold xv && jvalFieldsWellBold rest) = true := h
      have hx : jvalWellBold xv = true := (Bool.and_eq_true_iff.mp hsplit).1
      have hrest : jvalFieldsWellBold rest = true := (Bool.and_eq_true_iff.mp hsplit).2
      have h1 : jvalHasDoubleStar (convert_markdown_bold_to_html xv) = false :=
        ih (k, xv) (List.mem_cons_self (k, xv) rest) hx
      have h2 : jvalFieldsHasDoubleStar (convertBoldFields rest) = false :=
        ihl (fun u hu => ih u (List.mem_cons_of_mem (k, xv) hu)) hrest
      show (jvalHasDoubleStar (convert_markdown_bold_to_html xv)
          || jvalFieldsHasDoubleStar (convertBoldFields rest)) = false
      rw [h1, h2]
      rfl

/-- C5 counterexample: on a document whose summary is `"a **"` (an unpaired
bold marker) the normalization leaves the `**` in place, and on
`"****a**"` the lazy regex consumes the group `**a`, leaving the output
`"<strong>**a</strong>"`, which still contains `**`; so "no string field
contains `**` after bold normalization" is false. -/
theorem bold_normalization_counterexample :
    jvalHasDoubleStar (convert_markdown_bold_to_html
        (.obj [(chars "summary", .s (chars "a **"))])) = true
      ∧ jvalHasDoubleStar (convert_markdown_bold_to_html
          (.obj [(chars "summary", .s (chars "****a**"))])) = true
      ∧ subBold (chars "****a**") = chars "<strong>**a</strong>" := by decide

/-- Witness for the amended C5 at a concrete well-formed document. -/
theorem bold_normalization_amended_witness :
    jvalHasDoubleStar (convert_markdown_bold_to_html
        (.obj [(chars "summary", .s (chars "Uses **Python** and **Go** daily")),
               (chars "highlights", .arr [.s (chars "Shipped **10** features")])]))
      = false :=
  bold_normalization_amended
    (.obj [(chars "summary", .s (chars "Uses **Python** and **Go** daily")),
           (chars "highlights", .arr [.s (chars "Shipped **10** features")])])
    (by decide)

/-! ### C4: verb-cap analysis of `fix_repetitive_verbs` -/

/-- `verb_counts.get(v, 0)`: first-entry lookup with default 0. -/
def lookupCount : List (Chars × Nat) → Chars → Nat
  | [], _ => 0
  | p :: rest, v => if p.1 = v then p.2 else lookupCount rest v

theorem lookupCount_bump (m : List (Chars × Nat)) (v u : Chars) (k : Nat) :
    lookupCount (bumpCount m v k) u
      = if u = v then lookupCount m v + k else lookupCount m u := by
  induction m with
  | nil =>
    by_cases h : u = v
    · subst h; simp [bumpCount, lookupCount]
    · have hvu : ¬ v = u := fun hv => h hv.symm
      simp [bumpCount, lookupCount, h, hvu]
  | cons p rest ih =>
    obtain ⟨w, c⟩ := p
    by_cases h1 : w = v
    · subst h1
      by_cases h2 : u = w
      · subst h2; simp [bumpCount, lookupCount]
      · have hwu : ¬ w = u := fun hv => h2 hv.symm
        simp [bumpCount, lookupCount, h2, hwu]
    · by_cases h2 : w = u
      · subst h2
        simp [bumpCount, lookupCount, h1]
      · simp [bumpCount, lookupCount, h1, h2, ih]

theorem bumpCount_keys_sub (v : Chars) (k : Nat) :
    ∀ (m : List (Chars × Nat)), ∀ w ∈ (bumpCount m v k).map Prod.fst,
      w = v ∨ w ∈ m.map Prod.fst
  | [], w, hw => by
    simp [bumpCount] at hw
    exact Or.inl hw
  | (u, c) :: rest, w, hw => by
    by_cases h1 : u = v
    · simp [bumpCount, h1] at hw ⊢
      tauto
    · simp [bumpCount, h1] at hw ⊢
      rcases hw with h | h
      · tauto
      · rcases bumpCount_keys_sub v k rest w (by simpa using h) with h2 | h2
        · tauto
        · simp at h2; tauto

theorem bumpCount_keys_nodup (v : Chars) (k : Nat) :
    ∀ (m : List (Chars × Nat)), (m.map Prod.fst).Nodup →
      ((bumpCount m v k).map Prod.fst).Nodup
  | [], _ => by simp [bumpCount]
  | (u, c) :: rest, h => by
    have hu : u ∉ rest.map Prod.fst := (List.nodup_cons.mp (by simpa using h)).1
    have ht : (rest.map Prod.fst).Nodup := (List.nodup_cons.mp (by simpa using h)).2
    by_cases h1 : u = v
    · simpa [bumpCount, h1] using h
    · have : u ∉ (bumpCount rest v k).map Prod.fst := by
        intro hmem
        rcases bumpCount_keys_sub v k rest u hmem with h2 | h2
        · exact h1 h2
        · exact hu h2
      simp only [bumpCount, if_neg h1, List.map_cons]
      exact List.nodup_cons.mpr ⟨this, bumpCount_keys_nodup v k rest ht⟩

theorem lookupCount_countFold (t u : Chars) :
    ∀ (ps : List (Chars × List Chars)), (ps.map Prod.fst).Nodup →
      ∀ m, lookupCount
          (ps.foldl (fun m p => let k := wwCount p.1 t; if 0 < k then bumpCount m p.1 k else m) m) u
        = lookupCount m u + (if u ∈ ps.map Prod.fst then wwCount u t else 0)
  | [], _, m => by simp
  | p :: ps, hnd, m => by
    have hp1 : p.1 ∉ ps.map Prod.fst := (List.nodup_cons.mp (by simpa using hnd)).1
    have hps : (ps.map Prod.fst).Nodup := (List.nodup_cons.mp (by simpa using hnd)).2
    rw [List.foldl_cons, lookupCount_countFold t u ps hps]
    by_cases hu : u = p.1
    · have hnm : u ∉ ps.map Prod.fst := fun hm => hp1 (hu ▸ hm)
      rw [if_neg hnm]
      simp only [List.map_cons, List.mem_cons]
      rw [if_pos (Or.inl hu)]
      by_cases hk : 0 < wwCount p.1 t
      · rw [if_pos hk, lookupCount_bump, if_pos hu, hu]
        omega
      · have h0 : wwCount p.1 t = 0 := Nat.eq_zero_of_not_pos hk
        rw [if_neg hk, hu, h0]
    · have heq : lookupCount (if 0 < wwCount p.1 t then bumpCount m p.1 (wwCount p.1 t) else m) u
          = lookupCount m u := by
        by_cases hk : 0 < wwCount p.1 t
        · rw [if_pos hk, lookupCount_bump, if_neg hu]
        · rw [if_neg hk]
      simp only [List.map_cons, List.mem_cons]
      rw [heq]
      have hiff : (u = p.1 ∨ u ∈ ps.map Prod.fst) ↔ (u ∈ ps.map Prod.fst) := by
        constructor
        · rintro (h | h)
          · exact absurd h hu
          · exact h
        · exact Or.inr
      rw [if_congr hiff rfl rfl]

theorem countFold_keys_nodup (t : Chars) :
    ∀ (ps : List (Chars × List Chars)) (m : List (Chars × Nat)),
      (m.map Prod.fst).Nodup →
      ((ps.foldl (fun m p => let k := wwCount p.1 t; if 0 < k then bumpCount m p.1 k else m) m).map
        Prod.fst).Nodup
  | [], m, h => h
  | p :: ps, m, h => by
    rw [List.foldl_cons]
    apply countFold_keys_nodup t ps
    show ((if 0 < wwCount p.1 t then bumpCount m p.1 (wwCount p.1 t) else m).map Prod.fst).Nodup
    by_cases hk : 0 < wwCount p.1 t
    · rw [if_pos hk]
      exact bumpCount_keys_nodup p.1 (wwCount p.1 t) m h
    · rw [if_neg hk]
      exact h

theorem verb_alternatives_keys_nodup : (verb_alternatives.map Prod.fst).Nodup := by decide

theorem lookupCount_countsForItem (m : List (Chars × Nat)) (t u : Chars) :
    lookupCount (countsForItem m t) u
      = lookupCount m u
        + (if u ∈ verb_alternatives.map Prod.fst then wwCount u t else 0) :=
  lookupCount_countFold t u verb_alternatives verb_alternatives_keys_nodup m

theorem countsForItem_keys_nodup (m : List (Chars × Nat)) (t : Chars)
    (h : (m.map Prod.fst).Nodup) : ((countsForItem m t).map Prod.fst).Nodup :=
  countFold_keys_nodup t verb_alternatives m h

theorem lookupCount_verbCounts_fold (u : Chars) :
    ∀ (items : List (TxtRef × Chars)) (m : List (Chars × Nat)),
      lookupCount (items.foldl (fun m it => countsForItem m it.2) m) u
        = lookupCount m u
          + (if u ∈ verb_alternatives.map Prod.fst
             then (items.map (fun it => wwCount u it.2)).sum else 0)
  | [], m => by simp
  | it :: items, m => by
    rw [List.foldl_cons, lookupCount_verbCounts_fold u items, lookupCount_countsForItem]
    by_cases hk : u ∈ verb_alternatives.map Prod.fst
    · rw [if_pos hk, if_pos hk, if_pos hk]
      simp only [List.map_cons, List.sum_cons]
      omega
    · rw [if_neg hk, if_neg hk, if_neg hk]

theorem verbCounts_keys_nodup (items : List (TxtRef × Chars)) :
    ((verbCounts items).map Prod.fst).Nodup := by
  have : ∀ (its : List (TxtRef × Chars)) (m : List (Chars × Nat)),
      (m.map Prod.fst).Nodup →
      ((its.foldl (fun m it => countsForItem m it.2) m).map Prod.fst).Nodup := by
    intro its
    induction its with
    | nil => intro m h; exact h
    | cons it rest ih =>
      intro m h
      rw [List.foldl_cons]
      exact ih _ (countsForItem_keys_nodup m it.2 h)
  exact this items [] (by simp)

theorem mem_lookupCount :
    ∀ (m : List (Chars × Nat)), (m.map Prod.fst).Nodup → ∀ p ∈ m, p.2 = lookupCount m p.1
  | [], _, p, hp => absurd hp (List.not_mem_nil p)
  | q :: rest, h, p, hp => by
    have hq : q.1 ∉ rest.map Prod.fst := (List.nodup_cons.mp (by simpa using h)).1
    have ht : (rest.map Prod.fst).Nodup := (List.nodup_cons.mp (by simpa using h)).2
    rcases List.mem_cons.mp hp with h1 | h1
    · subst h1
      simp [lookupCount]
    · have hne : ¬ q.1 = p.1 := by
        intro hcontra
        exact hq (hcontra ▸ List.mem_map_of_mem Prod.fst h1)
      rw [show lookupCount (q :: rest) p.1 = if q.1 = p.1 then q.2 else lookupCount rest p.1
        from rfl]
      rw [if_neg hne]
      exact mem_lookupCount rest ht p h1

theorem foldl_fixVerbStep_id :
    ∀ (counts : List (Chars × Nat)) (st : Doc × List (TxtRef × Chars)),
      (∀ p ∈ counts, p.2 ≤ 2) → counts.foldl fixVerbStep st = st
  | [], _, _ => rfl
  | vc :: counts, st, h => by
    rw [List.foldl_cons]
    have hstep : fixVerbStep st vc = st := by
      unfold fixVerbStep
      rw [if_neg]
      intro hc
      have := h vc (List.mem_cons_self vc counts)
      omega
    rw [hstep]
    exact foldl_fixVerbStep_id counts st (fun p hp => h p (List.mem_cons_of_mem vc hp))

theorem fixVerbsPhase1_id (d : Doc) (hcap : verbCapOK d) : fixVerbsPhase1 d = d := by
  have hb : ∀ p ∈ verbCounts (collectTextItems d), p.2 ≤ 2 := by
    intro p hp
    have hv := mem_lookupCount _ (verbCounts_keys_nodup (collectTextItems d)) p hp
    have hl := lookupCount_verbCounts_fold p.1 (collectTextItems d) []
    rw [show verbCounts (collectTextItems d)
        = (collectTextItems d).foldl (fun m it => countsForItem m it.2) [] from rfl] at hv
    rw [hl] at hv
    rw [show lookupCount [] p.1 = 0 from rfl] at hv
    by_cases hk : p.1 ∈ verb_alternatives.map Prod.fst
    · rw [if_pos hk] at hv
      obtain ⟨q, hq, hq1⟩ := List.mem_map.mp hk
      have hle := hcap q hq
      rw [show totalVerbCount q.1 d
          = ((collectTextItems d).map (fun it => wwCount q.1 it.2)).sum from rfl, hq1] at hle
      omega
    · rw [if_neg hk] at hv
      omega
  show ((verbCounts (collectTextItems d)).foldl fixVerbStep (d, collectTextItems d)).1 = d
  rw [foldl_fixVerbStep_id _ _ hb]

/-- No word (after lowercasing and stripping non-word characters) repeats an
earlier nonempty cleaned word — the condition under which the duplicate-word
pass of lines 124-179 keeps a string unchanged. -/
def dupFree (s : Chars) : Prop :=
  (((splitWs s).map cleanWord).filter (fun c => c ≠ [])).Nodup

instance (s : Chars) : Decidable (dupFree s) := by
  unfold dupFree
  infer_instance

theorem fixDupGo_id :
    ∀ (ws : List Chars) (seen : List Chars),
      (∀ w ∈ ws, cleanWord w ≠ [] → cleanWord w ∉ seen) →
      ((ws.map cleanWord).filter (fun c => c ≠ [])).Nodup →
      fixDupGo seen ws = ws
  | [], _, _, _ => rfl
  | w :: rest, seen, hseen, hnd => by
    rw [fixDupGo]
    rw [if_neg (fun hc => hseen w (List.mem_cons_self w rest) hc.1 hc.2)]
    congr 1
    by_cases hw : cleanWord w = []
    · simp only [List.map_cons, List.filter_cons, hw] at hnd
      rw [if_neg (by simp)] at hnd
      apply fixDupGo_id rest (cleanWord w :: seen)
      · intro u hu hune hmem
        rcases List.mem_cons.mp hmem with h | h
        · exact hune (h.trans hw)
        · exact hseen u (List.mem_cons_of_mem w hu) hune h
      · exact hnd
    · simp only [List.map_cons, List.filter_cons] at hnd
      rw [if_pos (by simpa using hw)] at hnd
      obtain ⟨hnotmem, htail⟩ := List.nodup_cons.mp hnd
      apply fixDupGo_id rest (cleanWord w :: seen)
      · intro u hu hune hmem
        rcases List.mem_cons.mp hmem with h | h
        · apply hnotmem
          rw [← h]
          exact List.mem_filter.mpr ⟨List.mem_map_of_mem cleanWord hu, by simpa using hune⟩
        · exact hseen u (List.mem_cons_of_mem w hu) hune h
      · exact htail

theorem fixDupWords_id (s : Chars) (h : dupFree s) : fixDupWords s = s := by
  show (if fixDupGo [] (splitWs s) ≠ splitWs s then joinSpace (fixDupGo [] (splitWs s)) else s) = s
  have hgo : fixDupGo [] (splitWs s) = splitWs s :=
    fixDupGo_id (splitWs s) [] (fun w _ _ hmem => absurd hmem (List.not_mem_nil _)) h
  rw [hgo, if_neg (fun hne => hne rfl)]

theorem fixVerbsPhase2_id (d : Doc)
    (hdup : ∀ e ∈ d.experience, dupFree e.summary ∧ ∀ x ∈ e.highlights, dupFree x) :
    fixVerbsPhase2 d = d := by
  unfold fixVerbsPhase2
  have hmap : d.experience.map (fun e =>
      { e with summary := fixDupWords e.summary,
               highlights := e.highlights.map fixDupWords }) = d.experience := by
    have := List.map_congr_left (l := d.experience)
      (f := fun e => { e with summary := fixDupWords e.summary,
                              highlights := e.highlights.map fixDupWords })
      (g := id)
      (by
        intro e he
        obtain ⟨hs, hh⟩ := hdup e he
        have h1 : fixDupWords e.summary = e.summary := fixDupWords_id _ hs
        have h2 : e.highlights.map fixDupWords = e.highlights := by
          have := List.map_congr_left (l := e.highlights) (f := fixDupWords) (g := id)
            (fun x hx => fixDupWords_id x (hh x hx))
          rw [this, List.map_id]
        show ({ e with summary := fixDupWords e.summary,
                       highlights := e.highlights.map fixDupWords } : Experience) = e
        rw [h1, h2])
    rw [this, List.map_id]
  rw [hmap]

instance (d : Doc) : Decidable (verbCapOK d) :=
  inferInstanceAs (Decidable (∀ p ∈ verb_alternatives, totalVerbCount p.1 d ≤ 2))

/-- C4 (amended): `fix_repetitive_verbs` returns a resume unchanged — and the
verb cap therefore holds on its output — whenever the input already satisfies
the cap (no dictionary verb occurs more than twice across the summary and all
experience summaries/highlights) and no experience text repeats a cleaned
word.  The unconditional cap of the original claim fails: the repair replaces
at most one occurrence per text item, so a single field holding four
occurrences keeps three (see the counterexample). -/
theorem verb_cap_amended (d : Doc) (hcap : verbCapOK d)
    (hdup : ∀ e ∈ d.experience, dupFree e.summary ∧ ∀ x ∈ e.highlights, dupFree x) :
    fix_repetitive_verbs d = d ∧ verbCapOK (fix_repetitive_verbs d) := by
  have h2 : fix_repetitive_verbs d = d := by
    unfold fix_repetitive_verbs
    rw [fixVerbsPhase1_id d hcap]
    exact fixVerbsPhase2_id d hdup
  refine ⟨h2, ?_⟩
  rw [h2]
  exact hcap

/-- A resume whose summary uses `developed` four times. -/
def c4bad : Doc :=
  ⟨[], [], [], chars "developed developed developed developed", [], .flat [], ⟨[], [], [], []⟩⟩

/-- C4 counterexample: with `developed` occurring four times in the summary,
the repair needs two replacements but performs only one (one per text item),
leaving three occurrences — the claimed cap of 2 fails on the output. -/
theorem verb_cap_counterexample :
    totalVerbCount (chars "developed") (fix_repetitive_verbs c4bad) = 3
      ∧ ¬ verbCapOK (fix_repetitive_verbs c4bad) := by
  constructor
  · decide
  · decide

/-- A compliant resume: every dictionary verb at most twice, no duplicated
words inside any experience text. -/
def c4ok : Doc :=
  ⟨chars "A", [], [], chars "Led a team of engineers",
   [⟨chars "Dev", chars "X", [], chars "Built the core platform",
     [chars "Shipped features", chars "Improved latency"], []⟩],
   .flat [], ⟨[], [], [], []⟩⟩

/-- Witness for the amended C4 at a concrete compliant resume. -/
theorem verb_cap_amended_witness :
    fix_repetitive_verbs c4ok = c4ok ∧ verbCapOK (fix_repetitive_verbs c4ok) :=
  verb_cap_amended c4ok (by decide) (by decide)

/-! ### C2: no-op conditions for each post-processing step -/

theorem wwReplaceAllAux_id (pat rep : Chars) :
    ∀ (s : Chars) (prev : Option Char),
      wwCountAux pat s prev 0 = 0 → wwReplaceAllAux pat rep s prev 0 = s
  | [], _, _ => rfl
  | c :: rest, prev, h => by
    have hm : wwHeadMatch pat (c :: rest) prev = false := by
      by_cases hw : wwHeadMatch pat (c :: rest) prev = true
      · exfalso
        rw [show wwCountAux pat (c :: rest) prev 0
            = if wwHeadMatch pat (c :: rest) prev then
                1 + wwCountAux pat rest (some c) (pat.length - 1)
              else wwCountAux pat rest (some c) 0 from rfl, if_pos hw] at h
        omega
      · exact Bool.eq_false_iff.mpr hw
    have hrec : wwCountAux pat rest (some c) 0 = 0 := by
      rw [show wwCountAux pat (c :: rest) prev 0
          = if wwHeadMatch pat (c :: rest) prev then
              1 + wwCountAux pat rest (some c) (pat.length - 1)
            else wwCountAux pat rest (some c) 0 from rfl, hm] at h
      simpa using h
    rw [show wwReplaceAllAux pat rep (c :: rest) prev 0
        = if wwHeadMatch pat (c :: rest) prev then
            rep ++ wwReplaceAllAux pat rep rest (some c) (pat.length - 1)
          else c :: wwReplaceAllAux pat rep rest (some c) 0 from rfl, hm]
    simp only [Bool.false_eq_true, if_false]
    rw [wwReplaceAllAux_id pat rep rest (some c) hrec]

theorem wwReplaceAll_id (pat rep s : Chars) (h : wwCount pat s = 0) :
    wwReplaceAll pat rep s = s :=
  wwReplaceAllAux_id pat rep s none h

/-- A text containing no whole-word occurrence of any buzzword phrase. -/
def buzzFreeText (s : Chars) : Prop := ∀ p ∈ buzzword_replacements, wwCount p.1 s = 0

instance (s : Chars) : Decidable (buzzFreeText s) := by
  unfold buzzFreeText
  infer_instance

theorem applyBuzz_id (s : Chars) (h : buzzFreeText s) : applyBuzz s = s := by
  show buzzword_replacements.foldl (fun t p => wwReplaceAll p.1 p.2 t) s = s
  have : ∀ (ps : List (Chars × Chars)), (∀ p ∈ ps, wwCount p.1 s = 0) →
      ps.foldl (fun t p => wwReplaceAll p.1 p.2 t) s = s := by
    intro ps
    induction ps with
    | nil => intro _; rfl
    | cons p ps ih =>
      intro hall
      rw [List.foldl_cons, wwReplaceAll_id p.1 p.2 s (hall p (List.mem_cons_self p ps))]
      exact ih (fun q hq => hall q (List.mem_cons_of_mem p hq))
  exact this buzzword_replacements h

/-- One probed soft-skill category is already clean: absent, or nonempty with
no buzzword skills (so the filter keeps it unchanged). -/
def catOKB (cats : List (Chars × List Chars)) (k : Chars) : Bool :=
  match lookupCat cats k with
  | none => true
  | some l => decide (l ≠ []) && l.all (fun sk => ¬ lowerStr sk ∈ buzzword_skill_list)

/-- The skills section is already free of buzzword skills (and no probed
soft-skill category would be emptied). -/
def buzzSkillsOK : SkillsVal → Bool
  | .dict cats => buzzCats.all (catOKB cats)
  | .flat l => l.all (fun sk => ¬ lowerStr sk ∈ buzzword_skill_list)

theorem setCat_lookup_self (k : Chars) :
    ∀ (cats : List (Chars × List Chars)) (l : List Chars),
      lookupCat cats k = some l → setCat k l cats = cats
  | [], l, h => by simp [lookupCat] at h
  | p :: rest, l, h => by
    by_cases hp : p.1 = k
    · have hpl : p.2 = l := by
        unfold lookupCat at h
        rw [List.find?_cons_of_pos _ (by simpa using hp)] at h
        simpa using h
      rw [show setCat k l (p :: rest) = if p.1 = k then (k, l) :: rest else p :: setCat k l rest
        from rfl, if_pos hp]
      rw [← hp, ← hpl]
    · have hrest : lookupCat rest k = some l := by
        unfold lookupCat at h ⊢
        rwa [List.find?_cons_of_neg _ (by simpa using hp)] at h
      rw [show setCat k l (p :: rest) = if p.1 = k then (k, l) :: rest else p :: setCat k l rest
        from rfl, if_neg hp]
      rw [setCat_lookup_self k rest l hrest]

theorem cleanSoftCat_id (cats : List (Chars × List Chars)) (k : Chars)
    (h : catOKB cats k = true) : cleanSoftCat cats k = cats := by
  unfold cleanSoftCat
  unfold catOKB at h
  match hl : lookupCat cats k with
  | none => rfl
  | some l =>
    rw [hl] at h
    have hne : l ≠ [] := by
      have := (Bool.and_eq_true_iff.mp h).1
      simpa using this
    have hall : ∀ sk ∈ l, ¬ lowerStr sk ∈ buzzword_skill_list := by
      have := (Bool.and_eq_true_iff.mp h).2
      intro sk hsk
      have := List.all_eq_true.mp this sk hsk
      simpa using this
    have hfilter : l.filter (fun sk => ¬ lowerStr sk ∈ buzzword_skill_list) = l :=
      List.filter_eq_self.mpr (fun sk hsk => by simpa using hall sk hsk)
    show (if (l.filter (fun sk => ¬ lowerStr sk ∈ buzzword_skill_list)) = []
          then delCat k cats
          else setCat k (l.filter (fun sk => ¬ lowerStr sk ∈ buzzword_skill_list)) cats) = cats
    rw [hfilter, if_neg hne]
    exact setCat_lookup_self k cats l hl

theorem remove_buzzwords_id (d : Doc)
    (hsum : buzzFreeText d.summary)
    (hexp : ∀ e ∈ d.experience, buzzFreeText e.summary ∧ ∀ x ∈ e.highlights, buzzFreeText x)
    (hsk : buzzSkillsOK d.skills = true) :
    remove_buzzwords d = d := by
  obtain ⟨nm, hdl, loc, sum, exps, sk, edu⟩ := d
  simp only at hsum hexp hsk
  unfold remove_buzzwords
  simp only
  have hmap : exps.map (fun (e : Experience) =>
      { e with summary := applyBuzz e.summary, highlights := e.highlights.map applyBuzz })
      = exps := by
    have := List.map_congr_left (l := exps)
      (f := fun (e : Experience) =>
        { e with summary := applyBuzz e.summary, highlights := e.highlights.map applyBuzz })
      (g := id)
      (by
        intro e he
        obtain ⟨hs, hh⟩ := hexp e he
        have h1 : applyBuzz e.summary = e.summary := applyBuzz_id _ hs
        have h2 : e.highlights.map applyBuzz = e.highlights := by
          have := List.map_congr_left (l := e.highlights) (f := applyBuzz) (g := id)
            (fun x hx => applyBuzz_id x (hh x hx))
          rw [this, List.map_id]
        show ({ e with summary := applyBuzz e.summary,
                       highlights := e.highlights.map applyBuzz } : Experience) = e
        rw [h1, h2])
    rw [this, List.map_id]
  rw [applyBuzz_id sum hsum, hmap]
  cases sk with
  | dict cats =>
    have hfold : buzzCats.foldl cleanSoftCat cats = cats := by
      have hh : ∀ (ks : List Chars), (∀ k ∈ ks, catOKB cats k = true) →
          ks.foldl cleanSoftCat cats = cats := by
        intro ks
        induction ks with
        | nil => intro _; rfl
        | cons k ks ih =>
          intro hall
          rw [List.foldl_cons, cleanSoftCat_id cats k (hall k (List.mem_cons_self k ks))]
          exact ih (fun q hq => hall q (List.mem_cons_of_mem k hq))
      exact hh buzzCats (List.all_eq_true.mp hsk)
    simp only [hfold]
  | flat l =>
    have hfilter : l.filter (fun sk => ¬ lowerStr sk ∈ buzzword_skill_list) = l :=
      List.filter_eq_self.mpr (fun sk hskl => List.all_eq_true.mp hsk sk hskl)
    simp only [hfilter]

theorem firstEntryTitle_id (domain base t : Chars) (h1 : hasMarkerB t = true)
    (h2 : substrB (lowerStr domain) (lowerStr t) = true) :
    firstEntryTitle domain base t = t := by
  unfold firstEntryTitle
  rw [if_neg (by simp [h1]), if_neg (by simp [h2])]

theorem lastEntryTitle_id (domain base t : Chars) (num : Nat)
    (h0 : lastLevelQualifiers.find? (fun p => substrB (lowerStr p) (lowerStr t)) = none)
    (h1 : hasMarkerB t = false)
    (h2 : substrB (lowerStr domain) (lowerStr t) = true) :
    lastEntryTitle domain base t num = t := by
  have hclean : removeFirstQualifier lastLevelQualifiers t = t := by
    unfold removeFirstQualifier
    rw [h0]
  show (if hasMarkerB (removeFirstQualifier lastLevelQualifiers t) then
          (if 1 < num then chars "Junior " ++ base else base)
        else if ¬ substrB (lowerStr domain)
            (lowerStr (removeFirstQualifier lastLevelQualifiers t)) then
          (if 2 < num then chars "Junior " ++ base else base)
        else removeFirstQualifier lastLevelQualifiers t) = t
  rw [hclean, if_neg (by simp [h1]), if_neg (by simp [h2])]

theorem middleEntryTitle_id (domain base t : Chars)
    (h0 : allLevelQualifiers.find? (fun p => substrB (lowerStr p) (lowerStr t)) = none)
    (h2 : substrB (lowerStr domain) (lowerStr t) = true) :
    middleEntryTitle domain base t = t := by
  have hclean : removeFirstQualifier allLevelQualifiers t = t := by
    unfold removeFirstQualifier
    rw [h0]
  show (if ¬ substrB (lowerStr domain)
          (lowerStr (removeFirstQualifier allLevelQualifiers t)) then base
        else removeFirstQualifier allLevelQualifiers t) = t
  rw [hclean, if_neg (by simp [h2])]

theorem mapWI_id (f : Nat → Experience → Experience) :
    ∀ (l : List Experience) (k : Nat),
      (∀ i e, l.get? i = some e → f (k + i) e = e) → mapWI f k l = l
  | [], _, _ => rfl
  | e :: rest, k, h => by
    rw [show mapWI f k (e :: rest) = f k e :: mapWI f (k + 1) rest from rfl]
    have h0 : f k e = e := by
      have := h 0 e (by simp)
      simpa using this
    rw [h0]
    have hrest : ∀ i e', rest.get? i = some e' → f (k + 1 + i) e' = e' := by
      intro i e' hi
      have := h (i + 1) e' (by simpa using hi)
      rw [show k + 1 + i = k + (i + 1) by omega]
      exact this
    rw [mapWI_id f rest (k + 1) hrest]

/-- Per-entry fixed-point condition of the career-progression rules, at the
effective domain of the document. -/
def careerEntryOKB (domain : Chars) (n i : Nat) (e : Experience) : Bool :=
  if i = 0 then
    hasMarkerB e.title && substrB (lowerStr domain) (lowerStr e.title)
  else if i = n - 1 then
    (lastLevelQualifiers.find? (fun p => substrB (lowerStr p) (lowerStr e.title))).isNone
      && !hasMarkerB e.title && substrB (lowerStr domain) (lowerStr e.title)
  else
    (allLevelQualifiers.find? (fun p => substrB (lowerStr p) (lowerStr e.title))).isNone
      && substrB (lowerStr domain) (lowerStr e.title)

/-- Every experience title is a fixed point of its positional rule. -/
def careerCompliantB (job_domain : Chars) (d : Doc) : Bool :=
  match d.experience with
  | [] => true
  | e0 :: _ =>
    let domain := effectiveDomain e0.title job_domain
    let n := d.experience.length
    (List.range n).all (fun i =>
      match d.experience.get? i with
      | none => true
      | some e => careerEntryOKB domain n i e)

theorem enforcedEntry_id (domain base : Chars) (n i : Nat) (e : Experience)
    (h : careerEntryOKB domain n i e = true) : enforcedEntry domain base n i e = e := by
  unfold enforcedEntry
  unfold careerEntryOKB at h
  by_cases hi0 : i = 0
  · rw [if_pos hi0]
    rw [if_pos hi0] at h
    have h1 := (Bool.and_eq_true_iff.mp h).1
    have h2 := (Bool.and_eq_true_iff.mp h).2
    rw [firstEntryTitle_id domain base e.title h1 h2]
  · rw [if_neg hi0]
    rw [if_neg hi0] at h
    by_cases hin : i = n - 1
    · rw [if_pos hin]
      rw [if_pos hin] at h
      have h0 := (Bool.and_eq_true_iff.mp (Bool.and_eq_true_iff.mp h).1).1
      have h1 := (Bool.and_eq_true_iff.mp (Bool.and_eq_true_iff.mp h).1).2
      have h2 := (Bool.and_eq_true_iff.mp h).2
      rw [lastEntryTitle_id domain base e.title n (Option.isNone_iff_eq_none.mp h0)
        (by simpa using h1) h2]
    · rw [if_neg hin]
      rw [if_neg hin] at h
      have h0 := (Bool.and_eq_true_iff.mp h).1
      have h2 := (Bool.and_eq_true_iff.mp h).2
      rw [middleEntryTitle_id domain base e.title (Option.isNone_iff_eq_none.mp h0) h2]

theorem enforce_career_progression_id (d : Doc) (job_domain : Chars)
    (h : careerCompliantB job_domain d = true) :
    enforce_career_progression d job_domain = d := by
  unfold enforce_career_progression
  unfold careerCompliantB at h
  match hexp : d.experience with
  | [] => rfl
  | e0 :: rest =>
    rw [hexp] at h
    have hall := List.all_eq_true.mp
      (show (List.range (e0 :: rest).length).all (fun i =>
          match (e0 :: rest).get? i with
          | none => true
          | some e => careerEntryOKB (effectiveDomain e0.title job_domain)
              (e0 :: rest).length i e) = true from h)
    have hmap : mapWI
        (enforcedEntry (effectiveDomain e0.title job_domain)
          (baseTitleOf (effectiveDomain e0.title job_domain)) (e0 :: rest).length)
        0 (e0 :: rest) = e0 :: rest := by
      apply mapWI_id
      intro i e hi
      have hlt : i < (e0 :: rest).length := by
        by_contra hc
        push_neg at hc
        rw [List.get?_eq_none.mpr hc] at hi
        cases hi
      have hmem : i ∈ List.range (e0 :: rest).length := List.mem_range.mpr hlt
      have hth := hall i hmem
      rw [hi] at hth
      have hok : careerEntryOKB (effectiveDomain e0.title job_domain)
          (e0 :: rest).length i e = true := by
        simpa using hth
      rw [show (0 : Nat) + i = i by omega]
      exact enforcedEntry_id _ _ _ _ _ hok
    show ({ d with experience := mapWI
                     (enforcedEntry (effectiveDomain e0.title job_domain)
                       (baseTitleOf (effectiveDomain e0.title job_domain))
                       (e0 :: rest).length)
                     0 (e0 :: rest) } : Doc) = d
    rw [hmap, ← hexp]

theorem injectHeadline_id (d : Doc) (headline : Chars)
    (h : headline = [] ∨ d.headline = headline) : injectHeadline d headline = d := by
  unfold injectHeadline
  rcases h with h | h
  · rw [if_neg (by simp [h])]
  · by_cases he : headline = []
    · rw [if_neg (by simp [he])]
    · rw [if_pos (by simpa using he), ← h]

theorem fixAddress_id (d : Doc) (h : validate_address d.location = true) : fixAddress d = d := by
  unfold fixAddress
  rw [if_pos h]

/-- The ATS backfill finds nothing to add. -/
def atsNoNeed (hard_skills : List Chars) (d : Doc) : Bool :=
  hard_skills.isEmpty ||
  (match d.skills with
   | .dict cats =>
     let existingLower := cats.foldl (fun acc p => acc ++ p.2.map lowerStr) []
     (hard_skills.filter (fun sk => ¬ atsSkillFound existingLower sk)).isEmpty
   | .flat l =>
     let existingLower := l.map lowerStr
     (hard_skills.filter (fun sk =>
       ¬ lowerStr sk ∈ existingLower ∧ ¬ atsSkillFound existingLower sk)).isEmpty)

theorem atsBackfill_id (d : Doc) (hard_skills : List Chars)
    (h : atsNoNeed hard_skills d = true) : atsBackfill d hard_skills = d := by
  unfold atsBackfill
  unfold atsNoNeed at h
  by_cases hemp : hard_skills = []
  · rw [if_pos hemp]
  · rw [if_neg hemp]
    rw [show hard_skills.isEmpty = false from by
      cases hard_skills with
      | nil => exact absurd rfl hemp
      | cons a l => rfl] at h
    rw [Bool.false_or] at h
    obtain ⟨nm, hdl, loc, sum, exps, sk, edu⟩ := d
    simp only at h ⊢
    cases sk with
    | dict cats =>
      have hmiss : (hard_skills.filter (fun sk =>
          ¬ atsSkillFound (cats.foldl (fun acc p => acc ++ p.2.map lowerStr) []) sk)) = [] := by
        have := h
        simpa [List.isEmpty_iff] using this
      show (if (hard_skills.filter (fun sk =>
          ¬ atsSkillFound (cats.foldl (fun acc p => acc ++ p.2.map lowerStr) []) sk)) ≠ [] then
            _ else _) = _
      rw [if_neg (fun hne => hne hmiss)]
    | flat l =>
      have hadd : (hard_skills.filter (fun sk =>
          ¬ lowerStr sk ∈ l.map lowerStr ∧ ¬ atsSkillFound (l.map lowerStr) sk)) = [] := by
        have := h
        simpa [List.isEmpty_iff] using this
      show ({ name := nm, headline := hdl, location := loc, summary := sum,
              experience := exps,
              skills := SkillsVal.flat (l ++ hard_skills.filter (fun sk =>
                ¬ lowerStr sk ∈ l.map lowerStr ∧ ¬ atsSkillFound (l.map lowerStr) sk)),
              education := edu } : Doc)
          = { name := nm, headline := hdl, location := loc, summary := sum,
              experience := exps, skills := SkillsVal.flat l, education := edu }
      rw [hadd, List.append_nil]

theorem subBoldAux_id : ∀ (s : Chars), hasDoubleStar s = false → subBoldAux 0 s = s
  | [], _ => rfl
  | c :: rest, h => by
    by_cases hc : c = '*'
    · subst hc
      cases rest with
      | nil => rfl
      | cons c2 rest2 =>
        have hc2 : c2 ≠ '*' := by
          intro he
          subst he
          exact absurd h (by simp [hasDoubleStar])
        have hstep : subBoldAux 0 ('*' :: c2 :: rest2) = '*' :: subBoldAux 0 (c2 :: rest2) := by
          simp [subBoldAux, hc2]
        have hrest : hasDoubleStar (c2 :: rest2) = false := by
          have : hasDoubleStar ('*' :: c2 :: rest2) = hasDoubleStar (c2 :: rest2) := by
            simp [hasDoubleStar, hc2]
          rwa [this] at h
        rw [hstep, subBoldAux_id (c2 :: rest2) hrest]
    · rw [subBoldAux_cons_nostar hc, hasDoubleStar_cons_nostar hc] at *
      rw [subBoldAux_id rest h]

theorem subBold_id (s : Chars) (h : hasDoubleStar s = false) : subBold s = s :=
  subBoldAux_id s h

/-- No string field of one experience entry contains `**`. -/
def expNoStars (e : Experience) : Bool :=
  !hasDoubleStar e.title && !hasDoubleStar e.company && !hasDoubleStar e.period
    && !hasDoubleStar e.summary && e.highlights.all (fun x => !hasDoubleStar x)
    && e.skills.all (fun x => !hasDoubleStar x)

/-- No string value of the skills section contains `**`. -/
def skillsNoStars : SkillsVal → Bool
  | .dict cats => cats.all (fun p => p.2.all (fun x => !hasDoubleStar x))
  | .flat l => l.all (fun x => !hasDoubleStar x)

/-- No string value anywhere in the document contains `**`. -/
def docNoStars (d : Doc) : Bool :=
  !hasDoubleStar d.name && !hasDoubleStar d.headline && !hasDoubleStar d.location
    && !hasDoubleStar d.summary && d.experience.all expNoStars && skillsNoStars d.skills
    && !hasDoubleStar d.education.degree && !hasDoubleStar d.education.university
    && !hasDoubleStar d.education.period && !hasDoubleStar d.education.description

theorem subBold_id_not (s : Chars) (h : (!hasDoubleStar s) = true) : subBold s = s :=
  subBold_id s (by simpa using h)

theorem map_subBold_id (l : List Chars) (h : l.all (fun x => !hasDoubleStar x) = true) :
    l.map subBold = l := by
  have := List.map_congr_left (l := l) (f := subBold) (g := id)
    (fun x hx => subBold_id_not x (List.all_eq_true.mp h x hx))
  rw [this, List.map_id]

theorem convertBoldExperience_id (e : Experience) (h : expNoStars e = true) :
    convertBoldExperience e = e := by
  unfold expNoStars at h
  obtain ⟨t, co, pe, su, hi, sk⟩ := e
  simp only [Bool.and_eq_true] at h
  obtain ⟨⟨⟨⟨⟨h1, h2⟩, h3⟩, h4⟩, h5⟩, h6⟩ := h
  unfold convertBoldExperience
  simp only
  rw [subBold_id_not _ h1, subBold_id_not _ h2, subBold_id_not _ h3, subBold_id_not _ h4,
    map_subBold_id _ h5, map_subBold_id _ h6]

theorem convertBoldSkillsVal_id (sv : SkillsVal) (h : skillsNoStars sv = true) :
    convertBoldSkillsVal sv = sv := by
  cases sv with
  | dict cats =>
    show SkillsVal.dict (cats.map (fun p => (p.1, p.2.map subBold))) = SkillsVal.dict cats
    have := List.map_congr_left (l := cats) (f := fun p => (p.1, p.2.map subBold)) (g := id)
      (by
        intro p hp
        have hall := List.all_eq_true.mp (show cats.all (fun p =>
            p.2.all (fun x => !hasDoubleStar x)) = true from h) p hp
        show (p.1, p.2.map subBold) = p
        rw [map_subBold_id p.2 hall])
    rw [this, List.map_id]
  | flat l =>
    show SkillsVal.flat (l.map subBold) = SkillsVal.flat l
    rw [map_subBold_id l (show l.all (fun x => !hasDoubleStar x) = true from h)]

theorem convertBoldDoc_id (d : Doc) (h : docNoStars d = true) : convertBoldDoc d = d := by
  unfold docNoStars at h
  simp only [Bool.and_eq_true] at h
  obtain ⟨⟨⟨⟨⟨⟨⟨⟨⟨h1, h2⟩, h3⟩, h4⟩, h5⟩, h6⟩, h7⟩, h8⟩, h9⟩, h10⟩ := h
  have hexp : d.experience.map convertBoldExperience = d.experience := by
    have := List.map_congr_left (l := d.experience) (f := convertBoldExperience) (g := id)
      (fun e he => convertBoldExperience_id e (List.all_eq_true.mp h5 e he))
    rw [this, List.map_id]
  obtain ⟨nm, hdl, loc, sum, exps, sk, edu⟩ := d
  obtain ⟨dg, un, pe, de⟩ := edu
  simp only at h1 h2 h3 h4 h6 h7 h8 h9 h10 hexp
  unfold convertBoldDoc
  simp only
  rw [subBold_id_not _ h1, subBold_id_not _ h2, subBold_id_not _ h3, subBold_id_not _ h4,
    hexp, convertBoldSkillsVal_id sk h6, subBold_id_not _ h7, subBold_id_not _ h8,
    subBold_id_not _ h9, subBold_id_not _ h10]

theorem fix_repetitive_verbs_id (d : Doc) (hcap : verbCapOK d)
    (hdup : ∀ e ∈ d.experience, dupFree e.summary ∧ ∀ x ∈ e.highlights, dupFree x) :
    fix_repetitive_verbs d = d := by
  unfold fix_repetitive_verbs
  rw [fixVerbsPhase1_id d hcap]
  exact fixVerbsPhase2_id d hdup

/-- A document on which every correction step of the post-processor has
nothing to do: the headline inject is vacuous, the address validates, every
experience title is a fixed point of its career rule, the ATS backfill finds
nothing missing, the verb cap holds with no intra-string duplicates, no
buzzword occurs, and no string contains `**`. -/
def compliant (headline domain : Chars) (hard_skills : List Chars) (d : Doc) : Prop :=
  (headline = [] ∨ d.headline = headline)
  ∧ validate_address d.location = true
  ∧ careerCompliantB domain d = true
  ∧ atsNoNeed hard_skills d = true
  ∧ verbCapOK d
  ∧ (∀ e ∈ d.experience, dupFree e.summary ∧ ∀ x ∈ e.highlights, dupFree x)
  ∧ buzzFreeText d.summary
  ∧ (∀ e ∈ d.experience, buzzFreeText e.summary ∧ ∀ x ∈ e.highlights, buzzFreeText x)
  ∧ buzzSkillsOK d.skills = true
  ∧ docNoStars d = true

instance (headline domain : Chars) (hard_skills : List Chars) (d : Doc) :
    Decidable (compliant headline domain hard_skills d) := by
  unfold compliant
  infer_instance

/-- C2 (amended): the Document Post-Processor is not idempotent in general
(see the counterexample: the duplicate-word repair can introduce a fresh
duplicate that the next run rewrites again); it is a no-op — and therefore
idempotent — on every compliant document, i.e. one on which each correction
step has nothing to correct. -/
theorem post_processor_idempotent_amended (headline domain : Chars)
    (hard_skills : List Chars) (d : Doc)
    (h : compliant headline domain hard_skills d) :
    postProcess headline domain hard_skills d = d
      ∧ postProcess headline domain hard_skills (postProcess headline domain hard_skills d)
        = postProcess headline domain hard_skills d := by
  obtain ⟨hh, haddr, hcar, hats, hcap, hdup, hbsum, hbexp, hbsk, hstars⟩ := h
  have hid : postProcess headline domain hard_skills d = d := by
    unfold postProcess
    rw [injectHeadline_id d headline hh]
    rw [fixAddress_id d haddr]
    rw [enforce_career_progression_id d domain hcar]
    rw [atsBackfill_id d hard_skills hats]
    rw [fix_repetitive_verbs_id d hcap hdup]
    rw [remove_buzzwords_id d hbsum hbexp hbsk]
    rw [show add_quantification_to_bullets d = d from rfl]
    exact convertBoldDoc_id d hstars
  exact ⟨hid, by rw [hid, hid]⟩

/-- A resume on which the duplicate-word repair rewrites
`"architected designed and designed"` to `"architected designed and
architected"`, itself a duplicate the next run rewrites again. -/
def c2doc : Doc :=
  ⟨chars "A", [], chars "Bandung, West Java, Indonesia", chars "Good software person.",
   [⟨chars "Senior Python Developer", chars "X", [], chars "Works on things.",
     [chars "architected designed and designed"], []⟩],
   .flat [], ⟨[], [], [], []⟩⟩

/-- C2 counterexample: running the post-processor twice differs from running
it once — the first pass turns the highlight into `"architected designed and
architected"` and the second pass rewrites it again to `"architected designed
and engineered"`. -/
theorem post_processor_not_idempotent :
    postProcess [] (chars "Python") [] (postProcess [] (chars "Python") [] c2doc)
      ≠ postProcess [] (chars "Python") [] c2doc := by decide

/-- A fully compliant resume. -/
def c2ok : Doc :=
  ⟨chars "A", [], chars "Bandung, West Java, Indonesia", chars "Led a team of engineers.",
   [⟨chars "Senior Python Developer", chars "X", [], chars "Works on search systems.",
     [chars "Shipped features quickly"], []⟩],
   .flat [], ⟨[], [], [], []⟩⟩

/-- Witness for the amended C2 at a concrete compliant resume. -/
theorem post_processor_idempotent_amended_witness :
    postProcess [] (chars "Python") [] c2ok = c2ok
      ∧ postProcess [] (chars "Python") [] (postProcess [] (chars "Python") [] c2ok)
        = postProcess [] (chars "Python") [] c2ok :=
  post_processor_idempotent_amended [] (chars "Python") [] c2ok (by decide)
